import Mathlib

/-!
Verification of the fog-computing node in `main.go` (package main).

The Go code is shallowly embedded: `float64` arithmetic on scores and the
resource ledger is modelled over `ℚ` (all constants in the code are decimal
literals, and the specification states the arithmetic as real-valued);
`time.Duration` values are integer nanosecond counts, and `Duration.Seconds`
divides by 10^9; the task id `fmt.Sprintf("task-%d", time.Now().UnixNano())`
is modelled by the integer nanosecond reading itself (the formatting map
`n ↦ "task-" ++ show n` is injective, so identity of ids is preserved).
Opaque fields never inspected by the scheduler (`Payload`, `Result`) are not
modelled.
-/

namespace Fog

set_option maxRecDepth 2000

/-- Task status strings used by the code: "queued", "processing",
"completed", "rejected". -/
inductive Status where
  | queued
  | processing
  | completed
  | rejected
deriving DecidableEq, Repr

/-- Embedding of `type Task struct` from main.go.  `priority` and
`criticality` are Go `int`; `estimatedLatency` and `networkLatency` are
`time.Duration` in nanoseconds; the cost fields are `float64`, modelled as
rationals; `id` stands for the `task-%d` string, keyed by the nanosecond
clock reading; `submittedAt` is the nanosecond clock value. -/
structure Task where
  id : Int
  typ : String
  priority : Int
  criticality : Int
  smartScore : ℚ
  estimatedLatency : Int
  cpuCost : ℚ
  ramCost : ℚ
  storageCost : ℚ
  energyCost : ℚ
  networkLatency : Int
  status : Status
  submittedAt : Int
  completedAt : Option Int
deriving DecidableEq, Repr

instance : Inhabited Task :=
  ⟨⟨0, "", 0, 0, 0, 0, 0, 0, 0, 0, 0, Status.queued, 0, none⟩⟩

/-- The conversion `time.Duration.Seconds()`: nanoseconds to seconds. -/
def durationSeconds (d : Int) : ℚ :=
  (d : ℚ) / 1000000000

/-- Embedding of `func (t *Task) calculateScore() float64` (main.go lines
87-102): base priority, criticality bonus, latency penalties, resource,
storage and energy penalties. -/
def Task.calculateScore (t : Task) : ℚ :=
  let baseScore : ℚ := (t.priority : ℚ)
  let criticalityBonus : ℚ := ((5 - t.criticality : Int) : ℚ) * 10
  let latencyPenalty : ℚ := durationSeconds t.estimatedLatency * (1/10)
  let networkPenalty : ℚ := durationSeconds t.networkLatency * (5/100)
  let resourcePenalty : ℚ := (t.cpuCost + t.ramCost) * 5
  let storagePenalty : ℚ := t.storageCost * (1/1000)
  let energyPenalty : ℚ := t.energyCost * 2
  baseScore + criticalityBonus + latencyPenalty + networkPenalty +
    resourcePenalty + storagePenalty + energyPenalty

/-- Modelled from the spec (§4.1): the score formula as the specification
words it, used as the refinement target for claim C1.  It is written
directly from the spec text `priority + (5 − criticality) × 10 +
estimated_latency_s × 0.1 + network_latency_s × 0.05 + (cpu_cost +
ram_cost) × 5 + storage_cost × 0.001 + energy_cost × 2`. -/
def specScore (t : Task) : ℚ :=
  (t.priority : ℚ) + ((5 : ℚ) - (t.criticality : ℚ)) * 10 +
    durationSeconds t.estimatedLatency * (1/10) +
    durationSeconds t.networkLatency * (5/100) +
    (t.cpuCost + t.ramCost) * 5 + t.storageCost * (1/1000) +
    t.energyCost * 2

/-- Default CPU cost by task type (main.go lines 358-371). -/
def defaultCPUCost (typ : String) : ℚ :=
  if typ = "data_aggregation" then 2/10
  else if typ = "edge_analytics" then 4/10
  else if typ = "preprocessing" then 1/10
  else if typ = "caching" then 5/100
  else 2/10

/-- Default RAM cost by task type (main.go lines 372-385). -/
def defaultRAMCost (typ : String) : ℚ :=
  if typ = "data_aggregation" then 15/100
  else if typ = "edge_analytics" then 3/10
  else if typ = "preprocessing" then 1/10
  else if typ = "caching" then 5/100
  else 15/100

/-- Default storage cost by task type (main.go lines 386-399). -/
def defaultStorageCost (typ : String) : ℚ :=
  if typ = "data_aggregation" then 50
  else if typ = "edge_analytics" then 100
  else if typ = "preprocessing" then 25
  else if typ = "caching" then 10
  else 50

/-- The default-application block of `handleSubmitTask` (main.go lines
357-405): a zero cost field is replaced by the per-type default, the energy
default is half the (post-default) CPU cost, and a zero network latency
becomes 10 ms. -/
def applyDefaults (t : Task) : Task :=
  let cpu : ℚ := if t.cpuCost = 0 then defaultCPUCost t.typ else t.cpuCost
  let ram : ℚ := if t.ramCost = 0 then defaultRAMCost t.typ else t.ramCost
  let sto : ℚ :=
    if t.storageCost = 0 then defaultStorageCost t.typ else t.storageCost
  let ene : ℚ := if t.energyCost = 0 then cpu * (1/2) else t.energyCost
  let net : Int :=
    if t.networkLatency = 0 then 10 * 1000000 else t.networkLatency
  { t with cpuCost := cpu, ramCost := ram, storageCost := sto,
           energyCost := ene, networkLatency := net }

/-- A plain request Task as a client would submit it: only `typ`,
`priority` and `criticality` (and optionally costs) set, everything else
the Go zero value. -/
def mkRequest (typ : String) (priority criticality : Int) : Task :=
  { id := 0, typ := typ, priority := priority, criticality := criticality,
    smartScore := 0, estimatedLatency := 0, cpuCost := 0, ramCost := 0,
    storageCost := 0, energyCost := 0, networkLatency := 0,
    status := Status.queued, submittedAt := 0, completedAt := none }

/-! ## The priority queue

`TaskHeap` (main.go lines 63-82) is a Go slice managed by `container/heap`:
`Less` compares the frozen `SmartScore`, `heap.Push` appends and sifts up,
`heap.Pop` swaps the root with the last slot, sifts down over the prefix
and removes the last slot.  The slice is a `List Task`, indexed with `getD`
as Go indexes the slice. -/

/-- Read slot `i` of the slice, as `h[i]` in Go. -/

def hget (h : List Task) (i : ℕ) : Task :=
  h.getD i default

/-- The comparison key of slot `i`: `h[i].SmartScore` from `TaskHeap.Less`. -/
def hkey (h : List Task) (i : ℕ) : ℚ :=
  (hget h i).smartScore

/-- Go `TaskHeap.Swap`: exchange slots `i` and `j`. -/
def hswap (h : List Task) (i j : ℕ) : List Task :=
  (h.set i (hget h j)).set j (hget h i)

/-- The parent index `(j-1)/2` used by `container/heap`.  For `j = 0` Go
computes `-1/2 = 0`, which Nat subtraction reproduces. -/
def parentIdx (j : ℕ) : ℕ :=
  (j - 1) / 2

/-- Go `container/heap.up`: sift slot `j` towards the root while it is
strictly smaller than its parent. -/
def up (h : List Task) (j : ℕ) : List Task :=
  if parentIdx j = j then h
  else if hkey h j < hkey h (parentIdx j) then
    up (hswap h (parentIdx j) j) (parentIdx j)
  else h
termination_by j
decreasing_by
  unfold parentIdx at *
  omega

/-- Go `container/heap.down` with explicit bound `n`: sift slot `i` down,
moving to the smaller of the two children while the child is strictly
smaller. -/
def down (h : List Task) (i n : ℕ) : List Task :=
  if 2 * i + 1 < n then
    if 2 * i + 2 < n ∧ hkey h (2 * i + 2) < hkey h (2 * i + 1) then
      if hkey h (2 * i + 2) < hkey h i then
        down (hswap h i (2 * i + 2)) (2 * i + 2) n
      else h
    else
      if hkey h (2 * i + 1) < hkey h i then
        down (hswap h i (2 * i + 1)) (2 * i + 1) n
      else h
  else h
termination_by n - i
decreasing_by
  all_goals omega

/-- Go `heap.Push(&fc.taskHeap, x)`: append, then sift the last slot up. -/
def heapPushGo (h : List Task) (x : Task) : List Task :=
  up (h ++ [x]) ((h ++ [x]).length - 1)

/-- Go `heap.Pop(&fc.taskHeap)`: swap root and last slot, sift the root down
over the prefix, then detach the last slot (`TaskHeap.Pop`). -/
def heapPopGo (h : List Task) : Task × List Task :=
  let n := h.length - 1
  let h2 := down (hswap h 0 n) 0 n
  (hget h2 n, h2.dropLast)

/-! ## The node state and HTTP handlers -/

/-- The `MaxLoadThreshold` constant (main.go line 20). -/

def MaxLoadThreshold : ℚ := 8/10

/-- The reason strings built by `fmt.Sprintf` in `handleSubmitTask`,
modelled structurally with the exact values interpolated into the string:
`"Nœud surchargé: charge=%.2f, taille_queue=%d"`,
`"Ressources insuffisantes: CPU=%.2f/%.2f, RAM=%.2f/%.2f,
Storage=%.2f/%.2f"` and
`"Niveau d'énergie bas pour tâche critique: énergie=%.2f"`. -/
inductive Reason where
  | overloaded (load : ℚ) (queueSize : ℕ)
  | insufficientResources (cpu availCPU ram availRAM storage availStorage : ℚ)
  | lowEnergyCritical (energy : ℚ)
deriving DecidableEq, Repr

/-- Embedding of `type RejectedTask struct` (main.go lines 53-59). -/
structure RejectedTask where
  task : Task
  rejectedAt : Int
  reason : Reason
  nodeLoad : ℚ
  queueSize : ℕ
deriving DecidableEq, Repr

instance : Inhabited RejectedTask :=
  ⟨⟨default, 0, Reason.overloaded 0 0, 0, 0⟩⟩

/-- Embedding of `type FogCompute struct` (main.go lines 105-118) together
with the two metrics counters it drives; `load` is `fc.node.Load`, the task
store is an association list with Go-map update semantics. -/
structure FogCompute where
  load : ℚ
  tasks : List (Int × Task)
  taskHeap : List Task
  rejectedTasks : List RejectedTask
  tasksProcessed : ℕ
  tasksRejected : ℕ
  availableCPU : ℚ
  availableRAM : ℚ
  availableStorage : ℚ
  energyLevel : ℚ
deriving DecidableEq, Repr

/-- Embedding of `NewFogCompute` (main.go lines 130-157): empty store, heap and
rejection queue, full resources. -/
def initFog : FogCompute :=
  { load := 0, tasks := [], taskHeap := [], rejectedTasks := [],
    tasksProcessed := 0, tasksRejected := 0,
    availableCPU := 1, availableRAM := 1, availableStorage := 1000,
    energyLevel := 1 }

/-- Go map read `fc.tasks[taskID]`. -/
def mapGet (m : List (Int × Task)) (k : Int) : Option Task :=
  m.lookup k

/-- Go map write `fc.tasks[id] = &task`: any previous binding of the key
is replaced. -/
def mapSet (m : List (Int × Task)) (k : Int) (v : Task) : List (Int × Task) :=
  (k, v) :: m.filter (fun p => !(p.1 == k))

/-- Mutation through the shared `*Task` pointer held by both the store and
a worker: rewrite the record bound to key `k` in place. -/
def mapAdjust (m : List (Int × Task)) (k : Int) (f : Task → Task) :
    List (Int × Task) :=
  m.map (fun p => if p.1 = k then (p.1, f p.2) else p)

/-- The task record built by `handleSubmitTask` before the gates run
(main.go lines 407-411): defaults applied, `SmartScore` computed and
frozen, id and submission time stamped from the clock. -/
def admissionRecord (req : Task) (now : Int) : Task :=
  let t0 := applyDefaults req
  { t0 with smartScore := t0.calculateScore, id := now, submittedAt := now }

/-- Embedding of `rejectTask` (main.go lines 160-180): append the rejected record and
bump the `TasksRejected` counter. -/
def rejectTask (fc : FogCompute) (t : Task) (reason : Reason) (load : ℚ)
    (queueSize : ℕ) (now : Int) : FogCompute :=
  { fc with
    rejectedTasks := fc.rejectedTasks ++
      [{ task := t, rejectedAt := now, reason := reason, nodeLoad := load,
         queueSize := queueSize }],
    tasksRejected := fc.tasksRejected + 1 }

/-- Outcome of `POST /tasks`: HTTP 200 with the task, or 503 with a
reason. -/
inductive SubmitResult where
  | accepted (task : Task)
  | rejected (reason : Reason)
deriving DecidableEq, Repr

/-- Whether a `SubmitResult` is the 200 branch. -/
def SubmitResult.isAccepted : SubmitResult → Bool
  | SubmitResult.accepted _ => true
  | SubmitResult.rejected _ => false

/-- The task carried by a 200 response. -/
def acceptedTask : SubmitResult → Task
  | SubmitResult.accepted t => t
  | SubmitResult.rejected _ => default

/-- Embedding of `handleSubmitTask` (main.go lines 339-464): snapshot the
load, queue length and availabilities; apply defaults; compute the score
and stamp id and submission time; then run the overload, resource and
energy gates in order; on pass, reserve all four resources, insert into
the store, push onto the heap. -/
def handleSubmitTask (fc : FogCompute) (req : Task) (now : Int) :
    FogCompute × SubmitResult :=
  let currentLoad := fc.load
  let queueSize := fc.taskHeap.length
  let t1 := admissionRecord req now
  if currentLoad > MaxLoadThreshold ∨ queueSize > 50 then
    let reason := Reason.overloaded currentLoad queueSize
    (rejectTask fc { t1 with status := Status.rejected } reason currentLoad
       queueSize now,
     SubmitResult.rejected reason)
  else if t1.cpuCost > fc.availableCPU ∨ t1.ramCost > fc.availableRAM ∨
      t1.storageCost > fc.availableStorage then
    let reason := Reason.insufficientResources t1.cpuCost fc.availableCPU
      t1.ramCost fc.availableRAM t1.storageCost fc.availableStorage
    (rejectTask fc { t1 with status := Status.rejected } reason currentLoad
       queueSize now,
     SubmitResult.rejected reason)
  else if 4 ≤ t1.criticality ∧ fc.energyLevel < 3/10 then
    let reason := Reason.lowEnergyCritical fc.energyLevel
    (rejectTask fc { t1 with status := Status.rejected } reason currentLoad
       queueSize now,
     SubmitResult.rejected reason)
  else
    let t2 := { t1 with status := Status.queued }
    ({ fc with
       availableCPU := fc.availableCPU - t2.cpuCost,
       availableRAM := fc.availableRAM - t2.ramCost,
       availableStorage := fc.availableStorage - t2.storageCost,
       energyLevel := fc.energyLevel - t2.energyCost,
       tasks := mapSet fc.tasks t2.id t2,
       taskHeap := heapPushGo fc.taskHeap t2 },
     SubmitResult.accepted t2)

/-- Embedding of `handleGetTask` (main.go lines 466-481): store lookup; `none` is the
404 branch. -/
def getTask (fc : FogCompute) (id : Int) : Option Task :=
  mapGet fc.tasks id

/-- Outcome of `POST /rejected-tasks/{id}/retry`: 404, 503, or 200 with
the requeued task. -/
inductive RetryResult where
  | notFound
  | stillInsufficient
  | retried (task : Task)
deriving DecidableEq, Repr

/-- The requeue steps of the retry path (main.go lines 532-536): set
`status = "queued"`, stamp `SubmittedAt`, recompute `SmartScore` on the
updated record. -/
def requeuedTask (t : Task) (now : Int) : Task :=
  { t with
    status := Status.queued,
    submittedAt := now,
    smartScore :=
      { t with status := Status.queued, submittedAt := now }.calculateScore }

/-- Embedding of `handleRetryRejectedTask` (main.go lines 498-556): find
the first rejected entry with the id; re-check only the CPU/RAM/storage
availabilities; on pass remove the entry, requeue with a recomputed score,
reserve all four resources, insert into the store and push onto the
heap. -/
def handleRetryRejectedTask (fc : FogCompute) (id : Int) (now : Int) :
    FogCompute × RetryResult :=
  match fc.rejectedTasks.findIdx? (fun rt => rt.task.id == id) with
  | none => (fc, RetryResult.notFound)
  | some i =>
    let taskToRetry := (fc.rejectedTasks.getD i default).task
    if taskToRetry.cpuCost > fc.availableCPU ∨
        taskToRetry.ramCost > fc.availableRAM ∨
        taskToRetry.storageCost > fc.availableStorage then
      (fc, RetryResult.stillInsufficient)
    else
      let t2 := requeuedTask taskToRetry now
      ({ fc with
         rejectedTasks := fc.rejectedTasks.eraseIdx i,
         availableCPU := fc.availableCPU - t2.cpuCost,
         availableRAM := fc.availableRAM - t2.ramCost,
         availableStorage := fc.availableStorage - t2.storageCost,
         energyLevel := fc.energyLevel - t2.energyCost,
         tasks := mapSet fc.tasks t2.id t2,
         taskHeap := heapPushGo fc.taskHeap t2 },
       RetryResult.retried t2)

/-- First half of a worker iteration (main.go lines 200-224): when the
heap is non-empty, pop the minimum and mark it `processing` through the
shared pointer; on an empty heap the worker blocks on the condition
variable, so the state is unchanged. -/
def startProcessing (fc : FogCompute) : FogCompute :=
  if fc.taskHeap.isEmpty then fc
  else
    let popped := heapPopGo fc.taskHeap
    { fc with
      taskHeap := popped.2,
      tasks := mapAdjust fc.tasks popped.1.id
        (fun u => { u with status := Status.processing }) }

/-- Second half of `processTask` (main.go lines 245-269): mark the task
`completed`, record the completion time, release the four reserved costs
and bump `TasksProcessed`.  The guard restates the pointer discipline: a
worker only completes a task it previously popped and marked
`processing`. -/
def finishProcessing (fc : FogCompute) (id : Int) (now : Int) : FogCompute :=
  match mapGet fc.tasks id with
  | none => fc
  | some t =>
    if t.status = Status.processing then
      { fc with
        tasks := mapAdjust fc.tasks id
          (fun u => { u with
                      status := Status.completed,
                      completedAt := some now }),
        availableCPU := fc.availableCPU + t.cpuCost,
        availableRAM := fc.availableRAM + t.ramCost,
        availableStorage := fc.availableStorage + t.storageCost,
        energyLevel := fc.energyLevel + t.energyCost,
        tasksProcessed := fc.tasksProcessed + 1 }
    else fc

/-- One tick of `updateMetrics` (main.go lines 317-336):
`fc.node.Load = float64(fc.taskHeap.Len()) / 100.0`. -/
def metricsTick (fc : FogCompute) : FogCompute :=
  { fc with load := (fc.taskHeap.length : ℚ) / 100 }

/-! ## Claim C2: the S1 happy-path submission -/

/-- The task record that submitting `{type:"preprocessing", priority:1}`
to a fresh node at clock value 1 actually produces: criticality is not
defaulted, so it stays 0 and the criticality term is (5 − 0)·10 = 50. -/

def preprocTask1 : Task :=
  { id := 1, typ := "preprocessing", priority := 1, criticality := 0,
    smartScore := 52.1255, estimatedLatency := 0, cpuCost := 1/10,
    ramCost := 1/10, storageCost := 25, energyCost := 1/20,
    networkLatency := 10000000, status := Status.queued, submittedAt := 1,
    completedAt := none }

/-- A node whose queue holds 51 tasks. -/
def fog51 : FogCompute :=
  { initFog with taskHeap := List.replicate 51 default }

/-- A node at energy level 0.1 with everything else fresh. -/
def fogLowEnergy : FogCompute :=
  { initFog with energyLevel := 1/10 }

/-! ## Claim C8: the declared ledger ranges -/

/-- A low-criticality request that declares an energy cost of 2 Wh. -/

def heavyEnergyReq : Task :=
  { mkRequest "preprocessing" 1 1 with energyCost := 2 }

/-- A node whose snapshotted load is 1.0. -/
def fogOverloaded : FogCompute :=
  { initFog with load := 1 }

/-- The rejected record of a criticality-5 task used by the C5 witness. -/
def rejectedCrit5 : RejectedTask :=
  { task := { mkRequest "edge_analytics" 0 5 with
              id := 99, cpuCost := 4/10, ramCost := 3/10,
              storageCost := 100, energyCost := 2/10,
              networkLatency := 10000000, status := Status.rejected },
    rejectedAt := 3, reason := Reason.lowEnergyCritical (1/10),
    nodeLoad := 0, queueSize := 0 }

/-- A node at energy 0.1 holding one rejected criticality-5 task. -/
def fogSalvage : FogCompute :=
  { initFog with energyLevel := 1/10, rejectedTasks := [rejectedCrit5] }

/-- The binary min-heap shape of the first `n` slots: every non-root slot
is at least its parent in `SmartScore` order. -/
def IsHeapN (h : List Task) (n : ℕ) : Prop :=
  ∀ c, 0 < c → c < n → hkey h (parentIdx c) ≤ hkey h c

/-- The heap invariant `container/heap` maintains on `fc.taskHeap`. -/
def IsHeap (h : List Task) : Prop :=
  IsHeapN h h.length

/-- Invariant of `container/heap.up`: the heap shape can fail only at slot
`j` against its parent, and the parent of `j` already bounds the children
of `j`. -/
def UpInv (h : List Task) (n j : ℕ) : Prop :=
  (∀ c, 0 < c → c < n → c ≠ j → hkey h (parentIdx c) ≤ hkey h c) ∧
  (0 < j → ∀ c, c < n → parentIdx c = j →
    hkey h (parentIdx j) ≤ hkey h c)

/-- Invariant of `container/heap.down`: the heap shape can fail only at
the children of slot `i`, and the parent of `i` already bounds the
children of `i`. -/
def DownInv (h : List Task) (n i : ℕ) : Prop :=
  (∀ c, 0 < c → c < n → parentIdx c ≠ i → hkey h (parentIdx c) ≤ hkey h c) ∧
  (0 < i → ∀ c, c < n → parentIdx c = i →
    hkey h (parentIdx i) ≤ hkey h c)

/-! ## Claim C4: worker dispatch order

The heap is touched at exactly two places under the node lock: pushes from
`handleSubmitTask` / `handleRetryRejectedTask`, and the pop at the top of
the worker loop (which blocks on the condition variable while the heap is
empty).  A trace of these serialized operations is a list of `QOp`. -/

inductive QOp where
  | push (t : Task)
  | pop
deriving Repr

/-- One serialized heap operation of the node. -/
def applyQOp (h : List Task) : QOp → List Task
  | QOp.push t => heapPushGo h t
  | QOp.pop => if h.isEmpty then h else (heapPopGo h).2

/-- The heap contents after running a trace of operations from the empty
heap of `NewFogCompute`. -/
def runQOps (ops : List QOp) : List Task :=
  ops.foldl applyQOp []

/-- A queued task with score 1, payload fields defaulted. -/
def taskLow : Task :=
  { (default : Task) with id := 1, smartScore := 1 }

/-- A queued task with score 2, payload fields defaulted. -/
def taskHigh : Task :=
  { (default : Task) with id := 2, smartScore := 2 }

/-! ## Claim C3: resource conservation over whole executions

The serialized events of the node under its lock: a submission, a retry, a
worker picking up the minimum task, a worker finishing a task, and the
metrics tick.  Handlers run outside the lock and touch no ledger state, so
they are not events. -/

inductive Ev where
  | submit (req : Task) (now : Int)
  | retry (id : Int) (now : Int)
  | startProc
  | finishProc (id : Int) (now : Int)
  | tick

/-- One serialized state transition of the node. -/
def step (fc : FogCompute) : Ev → FogCompute
  | Ev.submit req now => (handleSubmitTask fc req now).1
  | Ev.retry id now => (handleRetryRejectedTask fc id now).1
  | Ev.startProc => startProcessing fc
  | Ev.finishProc id now => finishProcessing fc id now
  | Ev.tick => metricsTick fc

/-- The node state after a trace of events from `NewFogCompute`. -/
def runTrace (evs : List Ev) : FogCompute :=
  evs.foldl step initFog

/-- The `UnixNano` readings consumed by the submissions of a trace; these
become the assigned task ids. -/
def submitNows : List Ev → List Int
  | [] => []
  | Ev.submit _ now :: evs => now :: submitNows evs
  | _ :: evs => submitNows evs

/-- The cost a task contributes to the reserved total: its declared cost
while `queued` or `processing`, nothing once released. -/
def liveCost (cost : Task → ℚ) (t : Task) : ℚ :=
  if t.status = Status.queued ∨ t.status = Status.processing then cost t
  else 0

/-- Total declared cost of the live tasks of the store, one dimension at a
time. -/
def reservedSum (m : List (Int × Task)) (cost : Task → ℚ) : ℚ :=
  (m.map (fun p => liveCost cost p.2)).sum

/-- Spec §8 invariant 1: on each dimension, available + reserved equals
the initial capacity of `NewFogCompute`. -/
def Conservation (fc : FogCompute) : Prop :=
  fc.availableCPU + reservedSum fc.tasks (fun t => t.cpuCost) = 1 ∧
  fc.availableRAM + reservedSum fc.tasks (fun t => t.ramCost) = 1 ∧
  fc.availableStorage + reservedSum fc.tasks (fun t => t.storageCost)
    = 1000 ∧
  fc.energyLevel + reservedSum fc.tasks (fun t => t.energyCost) = 1

/-- The keys of the task store. -/
def storeIds (fc : FogCompute) : List Int :=
  fc.tasks.map (fun p => p.1)

/-- The ids of the rejection queue entries. -/
def rejIds (fc : FogCompute) : List Int :=
  fc.rejectedTasks.map (fun rt => rt.task.id)

/-- The ids of the tasks sitting in the priority queue. -/
def heapIds (fc : FogCompute) : List Int :=
  fc.taskHeap.map (fun t => t.id)

/-- The inductive invariant: conservation, plus the bookkeeping facts that
make it stable — ids are never shared between the store and the rejection
queue, every heap entry is a queued task of the store, and the heap never
holds two tasks of the same id. -/
structure Inv (fc : FogCompute) : Prop where
  conservation : Conservation fc
  idsNodup : (storeIds fc ++ rejIds fc).Nodup
  heapStore : ∀ t ∈ fc.taskHeap,
    ∃ u, mapGet fc.tasks t.id = some u ∧ u.status = Status.queued
  heapNodup : (heapIds fc).Nodup

/-- A concrete run for the C3 witness: admit a caching task, let a worker
pick it up, submit a second task that the resource gate rejects, retry it
successfully, and complete the first task. -/
def evC3 : List Ev :=
  [Ev.submit (mkRequest "caching" 1 1) 5,
   Ev.startProc,
   Ev.submit { mkRequest "edge_analytics" 0 2 with cpuCost := 2 } 6,
   Ev.retry 6 7,
   Ev.finishProc 5 8,
   Ev.tick]

/-! ## Theorems -/

/-! ## Theorems -/

/-! ## Small evaluation lemmas for the heap operations -/

theorem up_zero (h : List Task) : up h 0 = h := by
  rw [up]
  simp [parentIdx]

theorem heapPushGo_nil (x : Task) : heapPushGo [] x = [x] := by
  simp only [heapPushGo, List.nil_append, List.length_singleton]
  exact up_zero [x]

/-! ## Claim C1: the scoring formula -/

theorem calculateScore_eq_specScore (t : Task) :
    t.calculateScore = specScore t := by
  simp only [Task.calculateScore, specScore]
  push_cast
  ring

/-- C1: the `smart_score` stamped on every task at admission equals
priority + (5 − criticality)·10 + estimated-latency-seconds·0.1 +
network-latency-seconds·0.05 + (cpu_cost + ram_cost)·5 +
storage_cost·0.001 + energy_cost·2, evaluated on the attribute values
after defaults are applied; `calculateScore` takes only the task, so it is
deterministic in these attributes and reads no node state. -/
theorem c1_smart_score_formula :
    (∀ t : Task, t.calculateScore = specScore t) ∧
    ∀ req now, (admissionRecord req now).smartScore =
      specScore (applyDefaults req) := by
  refine ⟨calculateScore_eq_specScore, fun req now => ?_⟩
  simp only [admissionRecord, calculateScore_eq_specScore]

/-- C2 counterexample: the submission `{type:"preprocessing",
priority:1}`, all other fields omitted, is admitted on a fresh node, but
its `smart_score` is not 42.1255 (it is 52.1255: the code never defaults
`criticality`, so the omitted value 0 contributes 50, not 40). -/
theorem c2_counterexample :
    ((handleSubmitTask initFog (mkRequest "preprocessing" 1 0) 1).2).isAccepted
        = true ∧
    (acceptedTask
        (handleSubmitTask initFog (mkRequest "preprocessing" 1 0) 1).2).smartScore
      ≠ 42.1255 := by
  simp only [handleSubmitTask, admissionRecord, applyDefaults, mkRequest,
    initFog, Task.calculateScore, defaultCPUCost, defaultRAMCost,
    defaultStorageCost, durationSeconds, MaxLoadThreshold, String.reduceEq,
    reduceIte]
  norm_num [acceptedTask, SubmitResult.isAccepted]

/-- C2 amended: submitting `{type:"preprocessing", priority:1}` with every
other field omitted to a fresh node is admitted with defaults cpu 0.1,
ram 0.1, storage 25, energy 0.05, status queued, and smart_score exactly
52.1255 = 1 + 50 + 0 + 0.0005 + 1 + 0.025 + 0.1 (criticality is not
defaulted and stays 0). -/
theorem c2_amended_happy_path :
    (handleSubmitTask initFog (mkRequest "preprocessing" 1 0) 1).2 =
      SubmitResult.accepted preprocTask1 ∧
    preprocTask1.cpuCost = 0.1 ∧ preprocTask1.ramCost = 0.1 ∧
    preprocTask1.storageCost = 25 ∧ preprocTask1.energyCost = 0.05 ∧
    preprocTask1.status = Status.queued ∧
    preprocTask1.smartScore = 52.1255 := by
  simp only [handleSubmitTask, admissionRecord, applyDefaults, mkRequest,
    initFog, Task.calculateScore, defaultCPUCost, defaultRAMCost,
    defaultStorageCost, durationSeconds, MaxLoadThreshold, String.reduceEq,
    reduceIte]
  norm_num [preprocTask1]

/-! ## Claim C6: the overload gate -/

/-- C6: every submission made when the snapshotted load exceeds 0.80 or
the snapshotted queue length exceeds 50 is rejected with the overload
reason carrying both values, before the resource and energy gates are
consulted and regardless of the task's costs (the request, the
availabilities and the energy level are universally quantified and do not
appear in the hypothesis); the only state change is the appended rejection
record and the bumped counter. -/

theorem c6_overload_gate (fc : FogCompute) (req : Task) (now : Int)
    (h : fc.load > MaxLoadThreshold ∨ fc.taskHeap.length > 50) :
    handleSubmitTask fc req now =
      (rejectTask fc
         { admissionRecord req now with status := Status.rejected }
         (Reason.overloaded fc.load fc.taskHeap.length) fc.load
         fc.taskHeap.length now,
       SubmitResult.rejected (Reason.overloaded fc.load fc.taskHeap.length)) := by
  simp only [handleSubmitTask]
  rw [if_pos h]

/-- C6 witness: at queue length 51 a submission with zero-cost defaults is
still rejected with the overload reason. -/
theorem c6_overload_gate_witness :
    (fog51.load > MaxLoadThreshold ∨ fog51.taskHeap.length > 50) ∧
    (handleSubmitTask fog51 (mkRequest "edge_analytics" 0 5) 2).2 =
      SubmitResult.rejected (Reason.overloaded 0 51) := by
  have h : fog51.load > MaxLoadThreshold ∨ fog51.taskHeap.length > 50 := by
    right
    simp [fog51, initFog]
  refine ⟨h, ?_⟩
  rw [c6_overload_gate fog51 (mkRequest "edge_analytics" 0 5) 2 h]
  simp [fog51, initFog]

/-! ## Claim C7: the energy gate -/

/-- C7: a submission that has passed the overload and resource gates is
rejected exactly when its criticality is at least 4 and the energy level
is below 0.30; otherwise it is accepted and queued. -/

theorem c7_energy_gate (fc : FogCompute) (req : Task) (now : Int)
    (h1 : ¬(fc.load > MaxLoadThreshold ∨ fc.taskHeap.length > 50))
    (h2 : ¬((admissionRecord req now).cpuCost > fc.availableCPU ∨
        (admissionRecord req now).ramCost > fc.availableRAM ∨
        (admissionRecord req now).storageCost > fc.availableStorage)) :
    ((handleSubmitTask fc req now).2 =
        SubmitResult.rejected (Reason.lowEnergyCritical fc.energyLevel) ↔
      4 ≤ req.criticality ∧ fc.energyLevel < 3/10) ∧
    (¬(4 ≤ req.criticality ∧ fc.energyLevel < 3/10) →
      (handleSubmitTask fc req now).2 =
        SubmitResult.accepted
          { admissionRecord req now with status := Status.queued }) := by
  have hcrit : (admissionRecord req now).criticality = req.criticality := by
    simp [admissionRecord, applyDefaults]
  simp only [handleSubmitTask]
  rw [if_neg h1, if_neg h2]
  by_cases h3 : 4 ≤ (admissionRecord req now).criticality ∧
      fc.energyLevel < 3/10
  · rw [if_pos h3]
    rw [hcrit] at h3
    exact ⟨iff_of_true rfl h3, fun hn => absurd h3 hn⟩
  · rw [if_neg h3]
    rw [hcrit] at h3
    exact ⟨iff_of_false (by simp) h3, fun _ => rfl⟩

/-- C7 witness: at energy 0.1 with resources available, a criticality-3
caching task is admitted while the criticality-5 task with identical costs
is rejected. -/
theorem c7_energy_gate_witness :
    (handleSubmitTask fogLowEnergy (mkRequest "caching" 1 3) 7).2 =
      SubmitResult.accepted
        { admissionRecord (mkRequest "caching" 1 3) 7 with
          status := Status.queued } ∧
    (handleSubmitTask fogLowEnergy (mkRequest "caching" 1 5) 7).2 =
      SubmitResult.rejected (Reason.lowEnergyCritical (1/10)) := by
  have h1 : ¬(fogLowEnergy.load > MaxLoadThreshold ∨
      fogLowEnergy.taskHeap.length > 50) := by
    norm_num [fogLowEnergy, initFog, MaxLoadThreshold]
  have h2a : ¬((admissionRecord (mkRequest "caching" 1 3) 7).cpuCost >
        fogLowEnergy.availableCPU ∨
      (admissionRecord (mkRequest "caching" 1 3) 7).ramCost >
        fogLowEnergy.availableRAM ∨
      (admissionRecord (mkRequest "caching" 1 3) 7).storageCost >
        fogLowEnergy.availableStorage) := by
    simp only [admissionRecord, applyDefaults, mkRequest, defaultCPUCost,
      defaultRAMCost, defaultStorageCost, String.reduceEq, reduceIte]
    norm_num [fogLowEnergy, initFog]
  have h2b : ¬((admissionRecord (mkRequest "caching" 1 5) 7).cpuCost >
        fogLowEnergy.availableCPU ∨
      (admissionRecord (mkRequest "caching" 1 5) 7).ramCost >
        fogLowEnergy.availableRAM ∨
      (admissionRecord (mkRequest "caching" 1 5) 7).storageCost >
        fogLowEnergy.availableStorage) := by
    simp only [admissionRecord, applyDefaults, mkRequest, defaultCPUCost,
      defaultRAMCost, defaultStorageCost, String.reduceEq, reduceIte]
    norm_num [fogLowEnergy, initFog]
  constructor
  · exact (c7_energy_gate fogLowEnergy (mkRequest "caching" 1 3) 7 h1 h2a).2
      (by norm_num [mkRequest])
  · have h5 := (c7_energy_gate fogLowEnergy (mkRequest "caching" 1 5) 7 h1
      h2b).1.mpr ⟨by norm_num [mkRequest], by norm_num [fogLowEnergy]⟩
    simpa [fogLowEnergy] using h5

/-- C8 failing input: the energy gate only screens criticality ≥ 4, and no
gate compares `energy_cost` with `energy_level`, so a single admitted
criticality-1 task with declared energy cost 2 drives `energy_level` from
1 to −1, outside the declared range [0,1]. -/
theorem c8_energy_level_negative :
    ((handleSubmitTask initFog heavyEnergyReq 1).2).isAccepted = true ∧
    (handleSubmitTask initFog heavyEnergyReq 1).1.energyLevel = -1 := by
  simp only [handleSubmitTask, admissionRecord, applyDefaults,
    heavyEnergyReq, mkRequest, initFog, Task.calculateScore, defaultCPUCost,
    defaultRAMCost, defaultStorageCost, durationSeconds, MaxLoadThreshold,
    String.reduceEq, reduceIte]
  norm_num [SubmitResult.isAccepted]

/-! ## Claim C9: id generation -/

/-- C9 failing input: two admitted submissions whose `time.Now().UnixNano()`
readings coincide (a coarse or stepped clock).  The id is
`fmt.Sprintf("task-%d", time.Now().UnixNano())` with no counter appended,
so the two distinct admitted tasks receive the same id. -/

theorem c9_id_collision :
    ((handleSubmitTask initFog (mkRequest "caching" 1 1) 42).2).isAccepted
        = true ∧
    ((handleSubmitTask (handleSubmitTask initFog (mkRequest "caching" 1 1)
        42).1 (mkRequest "preprocessing" 2 1) 42).2).isAccepted = true ∧
    acceptedTask (handleSubmitTask initFog (mkRequest "caching" 1 1) 42).2 ≠
      acceptedTask (handleSubmitTask
        (handleSubmitTask initFog (mkRequest "caching" 1 1) 42).1
        (mkRequest "preprocessing" 2 1) 42).2 ∧
    (acceptedTask
        (handleSubmitTask initFog (mkRequest "caching" 1 1) 42).2).id =
      (acceptedTask (handleSubmitTask
        (handleSubmitTask initFog (mkRequest "caching" 1 1) 42).1
        (mkRequest "preprocessing" 2 1) 42).2).id := by
  simp only [handleSubmitTask, admissionRecord, applyDefaults, mkRequest,
    initFog, Task.calculateScore, defaultCPUCost, defaultRAMCost,
    defaultStorageCost, durationSeconds, MaxLoadThreshold, String.reduceEq,
    reduceIte, heapPushGo_nil, mapSet]
  norm_num [acceptedTask, SubmitResult.isAccepted]

/-! ## Claim C10: rejected tasks never reach the task store -/

/-- C10: a submission that fails any gate leaves the task store untouched,
so a GET of the rejected id answers 404 (the id being fresh, as every id
the clock has not already handed out is); the rejected record is reachable
only as the appended entry of the rejection queue. -/

theorem c10_rejection_not_stored (fc : FogCompute) (req : Task) (now : Int)
    (h : ((handleSubmitTask fc req now).2).isAccepted = false) :
    (handleSubmitTask fc req now).1.tasks = fc.tasks ∧
    (mapGet fc.tasks now = none →
      getTask (handleSubmitTask fc req now).1 now = none) ∧
    ∃ r : Reason,
      (handleSubmitTask fc req now).1.rejectedTasks =
        fc.rejectedTasks ++
          [{ task := { admissionRecord req now with status := Status.rejected },
             rejectedAt := now, reason := r, nodeLoad := fc.load,
             queueSize := fc.taskHeap.length }] := by
  simp only [handleSubmitTask] at h ⊢
  split_ifs at h ⊢ with h1 h2 h3
  · exact ⟨rfl, fun hn => by simpa [getTask, rejectTask] using hn,
      Reason.overloaded fc.load fc.taskHeap.length, rfl⟩
  · exact ⟨rfl, fun hn => by simpa [getTask, rejectTask] using hn,
      Reason.insufficientResources (admissionRecord req now).cpuCost
        fc.availableCPU (admissionRecord req now).ramCost fc.availableRAM
        (admissionRecord req now).storageCost fc.availableStorage, rfl⟩
  · exact ⟨rfl, fun hn => by simpa [getTask, rejectTask] using hn,
      Reason.lowEnergyCritical fc.energyLevel, rfl⟩
  · simp [SubmitResult.isAccepted] at h

/-- C10 witness: a submission rejected by the overload gate is not
retrievable from the task store. -/
theorem c10_rejection_not_stored_witness :
    (((handleSubmitTask fogOverloaded (mkRequest "caching" 1 1) 9).2).isAccepted
        = false) ∧
    getTask (handleSubmitTask fogOverloaded (mkRequest "caching" 1 1) 9).1 9
      = none := by
  have h : ((handleSubmitTask fogOverloaded (mkRequest "caching" 1 1)
      9).2).isAccepted = false := by
    simp only [handleSubmitTask, fogOverloaded, initFog, MaxLoadThreshold]
    norm_num [SubmitResult.isAccepted]
  exact ⟨h, (c10_rejection_not_stored fogOverloaded (mkRequest "caching" 1 1)
    9 h).2.1 (by simp [fogOverloaded, initFog, mapGet])⟩

/-! ## Claim C5: the retry salvage path -/

/-- C5: retry by id re-checks only the CPU/RAM/storage availabilities —
the hypotheses of the success case mention neither the load, the queue
length, the criticality nor the energy level, so the overload and energy
gates are not re-applied even for criticality ≥ 4 tasks at low energy.
An unknown id answers not-found with the state unchanged; insufficient
resources answer transient failure with the state unchanged; otherwise the
entry leaves the rejection queue, is requeued with status `queued`, all
four declared costs are deducted and the task is stored and pushed onto
the priority queue. -/

theorem c5_retry_paths (fc : FogCompute) (id now : Int) :
    (fc.rejectedTasks.findIdx? (fun rt => rt.task.id == id) = none →
      handleRetryRejectedTask fc id now = (fc, RetryResult.notFound)) ∧
    ∀ i, fc.rejectedTasks.findIdx? (fun rt => rt.task.id == id) = some i →
      (((fc.rejectedTasks.getD i default).task.cpuCost > fc.availableCPU ∨
          (fc.rejectedTasks.getD i default).task.ramCost > fc.availableRAM ∨
          (fc.rejectedTasks.getD i default).task.storageCost >
            fc.availableStorage) →
        handleRetryRejectedTask fc id now =
          (fc, RetryResult.stillInsufficient)) ∧
      (¬((fc.rejectedTasks.getD i default).task.cpuCost > fc.availableCPU ∨
          (fc.rejectedTasks.getD i default).task.ramCost > fc.availableRAM ∨
          (fc.rejectedTasks.getD i default).task.storageCost >
            fc.availableStorage) →
        handleRetryRejectedTask fc id now =
          ({ fc with
             rejectedTasks := fc.rejectedTasks.eraseIdx i,
             availableCPU := fc.availableCPU -
               (fc.rejectedTasks.getD i default).task.cpuCost,
             availableRAM := fc.availableRAM -
               (fc.rejectedTasks.getD i default).task.ramCost,
             availableStorage := fc.availableStorage -
               (fc.rejectedTasks.getD i default).task.storageCost,
             energyLevel := fc.energyLevel -
               (fc.rejectedTasks.getD i default).task.energyCost,
             tasks := mapSet fc.tasks
               ((fc.rejectedTasks.getD i default).task.id)
               (requeuedTask (fc.rejectedTasks.getD i default).task now),
             taskHeap := heapPushGo fc.taskHeap
               (requeuedTask (fc.rejectedTasks.getD i default).task now) },
           RetryResult.retried
             (requeuedTask (fc.rejectedTasks.getD i default).task now))) := by
  constructor
  · intro hf
    simp only [handleRetryRejectedTask]
    rw [hf]
  · intro i hf
    constructor
    · intro hres
      simp only [handleRetryRejectedTask]
      rw [hf]
      simp only [if_pos hres]
    · intro hres
      simp only [handleRetryRejectedTask]
      rw [hf]
      simp only [if_neg hres, requeuedTask]

/-- C5 witness: on the salvage node the unknown id 77 answers not-found,
while retrying id 99 succeeds although the task has criticality 5 and the
energy level is 0.1 — the energy gate is not re-applied. -/
theorem c5_retry_paths_witness :
    (handleRetryRejectedTask fogSalvage 77 5 =
      (fogSalvage, RetryResult.notFound)) ∧
    (handleRetryRejectedTask fogSalvage 99 5).2 =
      RetryResult.retried (requeuedTask rejectedCrit5.task 5) ∧
    (handleRetryRejectedTask fogSalvage 99 5).1.rejectedTasks = [] ∧
    (handleRetryRejectedTask fogSalvage 99 5).1.energyLevel = -1/10 := by
  have hf77 : fogSalvage.rejectedTasks.findIdx?
      (fun rt => rt.task.id == 77) = none := by
    simp [fogSalvage, rejectedCrit5, mkRequest, List.findIdx?]
  have hf99 : fogSalvage.rejectedTasks.findIdx?
      (fun rt => rt.task.id == 99) = some 0 := by
    simp [fogSalvage, rejectedCrit5, mkRequest, List.findIdx?]
  have hres : ¬((fogSalvage.rejectedTasks.getD 0 default).task.cpuCost >
        fogSalvage.availableCPU ∨
      (fogSalvage.rejectedTasks.getD 0 default).task.ramCost >
        fogSalvage.availableRAM ∨
      (fogSalvage.rejectedTasks.getD 0 default).task.storageCost >
        fogSalvage.availableStorage) := by
    norm_num [fogSalvage, rejectedCrit5, initFog, mkRequest]
  have h99 := ((c5_retry_paths fogSalvage 99 5).2 0 hf99).2 hres
  refine ⟨(c5_retry_paths fogSalvage 77 5).1 hf77, ?_, ?_, ?_⟩ <;>
      rw [h99]
  · simp [fogSalvage, rejectedCrit5, initFog, mkRequest]
  · simp [fogSalvage, rejectedCrit5, initFog, mkRequest]
  · simp only [fogSalvage, rejectedCrit5, initFog, mkRequest]
    norm_num

/-! ## Heap infrastructure lemmas -/

theorem length_hswap (h : List Task) (i j : ℕ) :
    (hswap h i j).length = h.length := by
  simp [hswap]

theorem hget_of_lt (h : List Task) (k : ℕ) (hk : k < h.length) :
    hget h k = h[k] :=
  List.getD_eq_getElem h default hk

theorem hget_mem (h : List Task) (k : ℕ) (hk : k < h.length) :
    hget h k ∈ h := by
  rw [hget_of_lt h k hk]
  exact List.getElem_mem hk

theorem hget_hswap (h : List Task) (i j k : ℕ) (hi : i < h.length)
    (hj : j < h.length) :
    hget (hswap h i j) k =
      if k = j then hget h i else if k = i then hget h j else hget h k := by
  simp only [hswap, hget, List.getD_eq_getElem?_getD, List.getElem?_set,
    List.length_set]
  by_cases hkj : k = j
  · rw [if_pos hkj.symm, if_pos hkj, if_pos hj]
    rfl
  · rw [if_neg (fun hh => hkj hh.symm), if_neg hkj]
    by_cases hki : k = i
    · rw [if_pos hki.symm, if_pos hki, if_pos hi]
      rfl
    · rw [if_neg (fun hh => hki hh.symm), if_neg hki]

theorem hkey_hswap (h : List Task) (i j k : ℕ) (hi : i < h.length)
    (hj : j < h.length) :
    hkey (hswap h i j) k =
      if k = j then hkey h i else if k = i then hkey h j else hkey h k := by
  simp only [hkey, hget_hswap h i j k hi hj]
  split_ifs <;> rfl

theorem mem_hswap (h : List Task) (i j : ℕ) (t : Task) (hi : i < h.length)
    (hj : j < h.length) (ht : t ∈ hswap h i j) : t ∈ h := by
  rcases List.mem_or_eq_of_mem_set ht with ht1 | ht1
  · rcases List.mem_or_eq_of_mem_set ht1 with ht2 | ht2
    · exact ht2
    · rw [ht2]
      exact hget_mem h j hj
  · rw [ht1]
    exact hget_mem h i hi

theorem count_hswap (h : List Task) (i j : ℕ) (x : Task) (hi : i < h.length)
    (hj : j < h.length) : (hswap h i j).count x = h.count x := by
  have hj2 : j < (h.set i (hget h j)).length := by
    simpa using hj
  simp only [hswap, List.count_set _ _ _ _ hj2, List.count_set _ _ _ _ hi]
  have hset : (h.set i (hget h j))[j] = if i = j then hget h j else h[j] := by
    rcases eq_or_ne i j with hij2 | hij2
    · subst hij2
      simp [List.getElem_set, hi]
    · simp [List.getElem_set, hij2]
  rw [hset, hget_of_lt h i hi, hget_of_lt h j hj]
  rcases eq_or_ne i j with hij2 | hij2
  · subst hij2
    rw [if_pos rfl]
    cases hbi : (h[i] == x)
    · simp [hbi]
    · have h1 : 0 < h.count x := List.count_pos_iff.mpr
        (by rw [← eq_of_beq hbi]; exact List.getElem_mem hi)
      simp [hbi]
      try omega
  · rw [if_neg hij2]
    cases hbi : (h[i] == x) <;> cases hbj : (h[j] == x)
    · simp [hbi, hbj]
    · have h1 : 0 < h.count x := List.count_pos_iff.mpr
        (by rw [← eq_of_beq hbj]; exact List.getElem_mem hj)
      simp [hbi, hbj]
      try omega
    · have h1 : 0 < h.count x := List.count_pos_iff.mpr
        (by rw [← eq_of_beq hbi]; exact List.getElem_mem hi)
      simp [hbi, hbj]
      try omega
    · have h1 : 0 < h.count x := List.count_pos_iff.mpr
        (by rw [← eq_of_beq hbi]; exact List.getElem_mem hi)
      simp [hbi, hbj]
      try omega

theorem hswap_perm (h : List Task) (i j : ℕ) (hi : i < h.length)
    (hj : j < h.length) : (hswap h i j).Perm h := by
  rw [List.perm_iff_count]
  intro x
  exact count_hswap h i j x hi hj

theorem length_up (h : List Task) (j : ℕ) : (up h j).length = h.length := by
  rw [up]
  split_ifs with h1 h2
  · rfl
  · rw [length_up (hswap h (parentIdx j) j) (parentIdx j), length_hswap]
  · rfl
termination_by j
decreasing_by
  unfold parentIdx at *
  omega

theorem length_down (h : List Task) (i n : ℕ) :
    (down h i n).length = h.length := by
  rw [down]
  split_ifs with h1 h2 h3 h4
  · rw [length_down (hswap h i (2 * i + 2)) (2 * i + 2) n, length_hswap]
  · rfl
  · rw [length_down (hswap h i (2 * i + 1)) (2 * i + 1) n, length_hswap]
  · rfl
  · rfl
termination_by n - i
decreasing_by
  all_goals omega

theorem mem_up (h : List Task) (j : ℕ) (hj : j < h.length) (t : Task)
    (ht : t ∈ up h j) : t ∈ h := by
  rw [up] at ht
  split_ifs at ht with h1 h2
  · exact ht
  · have hpj : parentIdx j < h.length := by
      unfold parentIdx at h1 ⊢
      omega
    exact mem_hswap h (parentIdx j) j t hpj hj
      (mem_up (hswap h (parentIdx j) j) (parentIdx j)
        (by rw [length_hswap]; exact hpj) t ht)
  · exact ht
termination_by j
decreasing_by
  unfold parentIdx at *
  omega

theorem mem_down (h : List Task) (i n : ℕ) (hn : n ≤ h.length) (t : Task)
    (ht : t ∈ down h i n) : t ∈ h := by
  rw [down] at ht
  split_ifs at ht with h1 h2 h3 h4
  · have hi2 : i < h.length := by omega
    have hj2 : 2 * i + 2 < h.length := by omega
    exact mem_hswap h i (2 * i + 2) t hi2 hj2
      (mem_down (hswap h i (2 * i + 2)) (2 * i + 2) n
        (by rw [length_hswap]; exact hn) t ht)
  · exact ht
  · have hi2 : i < h.length := by omega
    have hj2 : 2 * i + 1 < h.length := by omega
    exact mem_hswap h i (2 * i + 1) t hi2 hj2
      (mem_down (hswap h i (2 * i + 1)) (2 * i + 1) n
        (by rw [length_hswap]; exact hn) t ht)
  · exact ht
  · exact ht
termination_by n - i
decreasing_by
  all_goals omega

theorem up_perm (h : List Task) (j : ℕ) (hj : j < h.length) :
    (up h j).Perm h := by
  rw [up]
  split_ifs with h1 h2
  · exact List.Perm.refl h
  · have hpj : parentIdx j < h.length := by
      unfold parentIdx at h1 ⊢
      omega
    exact (up_perm (hswap h (parentIdx j) j) (parentIdx j)
        (by rw [length_hswap]; exact hpj)).trans
      (hswap_perm h (parentIdx j) j hpj hj)
  · exact List.Perm.refl h
termination_by j
decreasing_by
  unfold parentIdx at *
  omega

theorem down_perm (h : List Task) (i n : ℕ) (hn : n ≤ h.length) :
    (down h i n).Perm h := by
  rw [down]
  split_ifs with h1 h2 h3 h4
  · have hi2 : i < h.length := by omega
    have hj2 : 2 * i + 2 < h.length := by omega
    exact (down_perm (hswap h i (2 * i + 2)) (2 * i + 2) n
        (by rw [length_hswap]; exact hn)).trans
      (hswap_perm h i (2 * i + 2) hi2 hj2)
  · exact List.Perm.refl h
  · have hi2 : i < h.length := by omega
    have hj2 : 2 * i + 1 < h.length := by omega
    exact (down_perm (hswap h i (2 * i + 1)) (2 * i + 1) n
        (by rw [length_hswap]; exact hn)).trans
      (hswap_perm h i (2 * i + 1) hi2 hj2)
  · exact List.Perm.refl h
  · exact List.Perm.refl h
termination_by n - i
decreasing_by
  all_goals omega

theorem down_hget_ge (h : List Task) (i n : ℕ) (hn : n ≤ h.length) (k : ℕ)
    (hk : n ≤ k) : hget (down h i n) k = hget h k := by
  rw [down]
  split_ifs with h1 h2 h3 h4
  · rw [down_hget_ge (hswap h i (2 * i + 2)) (2 * i + 2) n
      (by rw [length_hswap]; exact hn) k hk]
    rw [hget_hswap h i (2 * i + 2) k (by omega) (by omega)]
    rw [if_neg (by omega), if_neg (by omega)]
  · rfl
  · rw [down_hget_ge (hswap h i (2 * i + 1)) (2 * i + 1) n
      (by rw [length_hswap]; exact hn) k hk]
    rw [hget_hswap h i (2 * i + 1) k (by omega) (by omega)]
    rw [if_neg (by omega), if_neg (by omega)]
  · rfl
  · rfl
termination_by n - i
decreasing_by
  all_goals omega

theorem hget_append_lt (h : List Task) (x : Task) (k : ℕ)
    (hk : k < h.length) : hget (h ++ [x]) k = hget h k := by
  simp [hget, List.getD_eq_getElem?_getD, List.getElem?_append_left hk]

theorem hget_dropLast (h : List Task) (k : ℕ) (hk : k < h.length - 1) :
    hget h.dropLast k = hget h k := by
  have hk2 : k < h.length := by omega
  simp [hget, List.getD_eq_getElem?_getD, List.getElem?_dropLast, hk,
    List.getElem?_eq_getElem hk2]

theorem isHeapN_root_le (h : List Task) (n : ℕ) (hh : IsHeapN h n) (j : ℕ)
    (hj : j < n) : hkey h 0 ≤ hkey h j := by
  rcases Nat.eq_zero_or_pos j with h0 | h0
  · subst h0
    exact le_refl _
  · have hp : parentIdx j < j := by
      unfold parentIdx
      omega
    exact le_trans (isHeapN_root_le h n hh (parentIdx j) (by omega))
      (hh j h0 hj)
termination_by j

theorem upInv_step (h : List Task) (j : ℕ) (hj : j < h.length)
    (hj0 : parentIdx j ≠ j) (hlt : hkey h j < hkey h (parentIdx j))
    (hinv : UpInv h h.length j) :
    UpInv (hswap h (parentIdx j) j) h.length (parentIdx j) := by
  have hij : parentIdx j < j := by
    unfold parentIdx at *
    omega
  have hi : parentIdx j < h.length := lt_trans hij hj
  have hne : parentIdx j ≠ j := hj0
  have hswk : ∀ k, hkey (hswap h (parentIdx j) j) k =
      if k = j then hkey h (parentIdx j)
      else if k = parentIdx j then hkey h j else hkey h k :=
    fun k => hkey_hswap h (parentIdx j) j k hi hj
  constructor
  · intro c hc0 hcn hci
    by_cases hcj : c = j
    · rw [hcj, hswk, hswk, if_neg hne, if_pos rfl, if_pos rfl]
      exact le_of_lt hlt
    · by_cases hpci : parentIdx c = parentIdx j
      · have hc_ne : c ≠ parentIdx j := hci
        rw [hswk, hswk, if_neg hcj, if_neg hc_ne, hpci, if_neg hne,
          if_pos rfl]
        have h2 := hinv.1 c hc0 hcn hcj
        rw [hpci] at h2
        exact le_trans (le_of_lt hlt) h2
      · by_cases hpcj : parentIdx c = j
        · have hcj2 : j < c := by
            unfold parentIdx at *
            omega
          rw [hswk, hswk, if_neg hcj, if_neg hci, hpcj, if_pos rfl]
          have h2 := hinv.2 (by omega) c hcn hpcj
          exact h2
        · rw [hswk, hswk, if_neg hcj, if_neg hci, if_neg hpcj,
            if_neg hpci]
          exact hinv.1 c hc0 hcn hcj
  · intro hi0 c hcn hpc
    have hpi_lt : parentIdx (parentIdx j) < parentIdx j := by
      unfold parentIdx at *
      omega
    have hpi_ne_i : parentIdx (parentIdx j) ≠ parentIdx j := by omega
    have hpi_ne_j : parentIdx (parentIdx j) ≠ j := by omega
    rw [hswk, if_neg hpi_ne_j, if_neg hpi_ne_i]
    by_cases hcj : c = j
    · rw [hcj, hswk, if_pos rfl]
      exact hinv.1 (parentIdx j) hi0 hi hne
    · have hc_gt : parentIdx j < c := by
        unfold parentIdx at *
        omega
      have hc_ne_i : c ≠ parentIdx j := by omega
      rw [hswk, if_neg hcj, if_neg hc_ne_i]
      have h2 := hinv.1 c (by omega) hcn hcj
      rw [hpc] at h2
      exact le_trans (hinv.1 (parentIdx j) hi0 hi hne) h2

theorem up_isHeap_aux (h : List Task) (j : ℕ) (hj : j < h.length)
    (hinv : UpInv h h.length j) : IsHeapN (up h j) h.length := by
  rw [up]
  split_ifs with h1 h2
  · intro c hc0 hcn
    have hj0 : j = 0 := by
      unfold parentIdx at h1
      omega
    exact hinv.1 c hc0 hcn (by omega)
  · have hpj : parentIdx j < h.length := by
      unfold parentIdx at h1 ⊢
      omega
    have hstep := upInv_step h j hj h1 h2 hinv
    have hrec := up_isHeap_aux (hswap h (parentIdx j) j) (parentIdx j)
      (by rw [length_hswap]; exact hpj)
      (by rw [length_hswap]; exact hstep)
    rwa [length_hswap] at hrec
  · intro c hc0 hcn
    by_cases hcj : c = j
    · rw [hcj]
      exact le_of_not_lt h2
    · exact hinv.1 c hc0 hcn hcj
termination_by j
decreasing_by
  unfold parentIdx at *
  omega

/-- Go `heap.Push` preserves the heap invariant. -/
theorem isHeap_push (h : List Task) (x : Task) (hh : IsHeap h) :
    IsHeap (heapPushGo h x) := by
  unfold heapPushGo IsHeap
  rw [length_up]
  have hlen : (h ++ [x]).length = h.length + 1 := by simp
  rw [hlen]
  rw [Nat.add_sub_cancel]
  have haux := up_isHeap_aux (h ++ [x]) h.length (by simp) ?inv
  · rwa [hlen] at haux
  case inv =>
    rw [hlen]
    constructor
    · intro c hc0 hcn hcj
      have hcb : c < h.length := by omega
      have hpb : parentIdx c < h.length := by
        unfold parentIdx
        omega
      unfold hkey
      rw [hget_append_lt h x c hcb, hget_append_lt h x (parentIdx c) hpb]
      exact hh c hc0 hcb
    · intro hj0 c hcn hpc
      unfold parentIdx at hpc
      omega

theorem downInv_step (h : List Task) (i n j : ℕ) (hn : n ≤ h.length)
    (hij : i < j) (hjn : j < n) (hchild : parentIdx j = i)
    (hsib : ∀ s, 0 < s → s < n → parentIdx s = i → hkey h j ≤ hkey h s)
    (hlt : hkey h j < hkey h i) (hinv : DownInv h n i) :
    DownInv (hswap h i j) n j := by
  have hi : i < h.length := by omega
  have hjh : j < h.length := by omega
  have hne : i ≠ j := by omega
  have hswk : ∀ k, hkey (hswap h i j) k =
      if k = j then hkey h i else if k = i then hkey h j else hkey h k :=
    fun k => hkey_hswap h i j k hi hjh
  constructor
  · intro c hc0 hcn hpc
    by_cases hcj : c = j
    · rw [hcj, hchild, hswk, hswk, if_neg (by omega : ¬i = j), if_pos rfl,
        if_pos rfl]
      exact le_of_lt hlt
    · by_cases hci : c = i
      · rw [hci]
        have hi0 : 0 < i := by omega
        have hpi_ne_j : parentIdx i ≠ j := by
          unfold parentIdx at *
          omega
        have hpi_ne_i : parentIdx i ≠ i := by
          unfold parentIdx at *
          omega
        rw [hswk, hswk, if_neg hpi_ne_j, if_neg hpi_ne_i,
          if_neg (by omega : ¬i = j), if_pos rfl]
        exact hinv.2 hi0 j hjn hchild
      · by_cases hpci : parentIdx c = i
        · rw [hswk, hswk, if_neg hcj, if_neg hci, hpci,
            if_neg (by omega : ¬i = j), if_pos rfl]
          exact hsib c hc0 hcn hpci
        · rw [hswk, hswk, if_neg hcj, if_neg hci, if_neg hpc, if_neg hpci]
          exact hinv.1 c hc0 hcn hpci
  · intro hj0 c hcn hpc
    have hcgt : j < c := by
      unfold parentIdx at hpc
      omega
    rw [hchild, hswk, hswk, if_neg (by omega : ¬i = j), if_pos rfl,
      if_neg (by omega : ¬c = j), if_neg (by omega : ¬c = i)]
    have h2 := hinv.1 c (by omega) hcn (by rw [hpc]; omega)
    rw [hpc] at h2
    exact h2

theorem down_isHeap_aux (h : List Task) (i n : ℕ) (hn : n ≤ h.length)
    (hinv : DownInv h n i) : IsHeapN (down h i n) n := by
  rw [down]
  split_ifs with h1 h2 h3 h4
  · refine down_isHeap_aux (hswap h i (2 * i + 2)) (2 * i + 2) n
      (by rw [length_hswap]; exact hn) ?_
    refine downInv_step h i n (2 * i + 2) hn (by omega) h2.1
      (by unfold parentIdx; omega) ?_ h3 hinv
    intro s hs0 hsn hps
    have hs12 : s = 2 * i + 1 ∨ s = 2 * i + 2 := by
      unfold parentIdx at hps
      omega
    rcases hs12 with hs | hs
    · rw [hs]
      exact le_of_lt h2.2
    · rw [hs]
  · intro c hc0 hcn
    by_cases hpc : parentIdx c = i
    · have hc12 : c = 2 * i + 1 ∨ c = 2 * i + 2 := by
        unfold parentIdx at hpc
        omega
      have hk2 : hkey h i ≤ hkey h (2 * i + 2) := le_of_not_lt h3
      rw [hpc]
      rcases hc12 with hc | hc
      · rw [hc]
        exact le_trans hk2 (le_of_lt h2.2)
      · rw [hc]
        exact hk2
    · exact hinv.1 c hc0 hcn hpc
  · refine down_isHeap_aux (hswap h i (2 * i + 1)) (2 * i + 1) n
      (by rw [length_hswap]; exact hn) ?_
    refine downInv_step h i n (2 * i + 1) hn (by omega) h1
      (by unfold parentIdx; omega) ?_ h4 hinv
    intro s hs0 hsn hps
    have hs12 : s = 2 * i + 1 ∨ s = 2 * i + 2 := by
      unfold parentIdx at hps
      omega
    rcases hs12 with hs | hs
    · rw [hs]
    · rw [hs]
      by_cases hs2 : 2 * i + 2 < n
      · have := fun hlt => h2 ⟨hs2, hlt⟩
        exact le_of_not_lt this
      · omega
  · intro c hc0 hcn
    by_cases hpc : parentIdx c = i
    · have hc12 : c = 2 * i + 1 ∨ c = 2 * i + 2 := by
        unfold parentIdx at hpc
        omega
      have hk1 : hkey h i ≤ hkey h (2 * i + 1) := le_of_not_lt h4
      rw [hpc]
      rcases hc12 with hc | hc
      · rw [hc]
        exact hk1
      · rw [hc]
        have hs2 : 2 * i + 2 < n := by omega
        have hk12 : hkey h (2 * i + 1) ≤ hkey h (2 * i + 2) :=
          le_of_not_lt (fun hlt => h2 ⟨hs2, hlt⟩)
        exact le_trans hk1 hk12
    · exact hinv.1 c hc0 hcn hpc
  · intro c hc0 hcn
    by_cases hpc : parentIdx c = i
    · unfold parentIdx at hpc
      omega
    · exact hinv.1 c hc0 hcn hpc
termination_by n - i
decreasing_by
  all_goals omega

theorem heapPopGo_fst (h : List Task) (hne : h ≠ []) :
    (heapPopGo h).1 = hget h 0 := by
  have hlen : 0 < h.length := List.length_pos.mpr hne
  show hget (down (hswap h 0 (h.length - 1)) 0 (h.length - 1))
      (h.length - 1) = hget h 0
  rw [down_hget_ge (hswap h 0 (h.length - 1)) 0 (h.length - 1)
    (by rw [length_hswap]; omega) (h.length - 1) (le_refl _)]
  rw [hget_hswap h 0 (h.length - 1) (h.length - 1) (by omega) (by omega)]
  rw [if_pos rfl]

theorem heapPopGo_mem (h : List Task) (hne : h ≠ []) :
    (heapPopGo h).1 ∈ h := by
  rw [heapPopGo_fst h hne]
  exact hget_mem h 0 (List.length_pos.mpr hne)

/-- The popped task has the least `SmartScore` of the whole heap. -/
theorem heapPopGo_min (h : List Task) (hne : h ≠ []) (hh : IsHeap h) :
    ∀ t ∈ h, (heapPopGo h).1.smartScore ≤ t.smartScore := by
  intro t ht
  rw [heapPopGo_fst h hne]
  obtain ⟨k, hk, rfl⟩ := List.mem_iff_getElem.mp ht
  have hr := isHeapN_root_le h h.length hh k hk
  unfold hkey at hr
  rw [hget_of_lt h k hk] at hr
  exact hr

theorem heapPopGo_isHeap (h : List Task) (hne : h ≠ []) (hh : IsHeap h) :
    IsHeap (heapPopGo h).2 := by
  have hlen : 0 < h.length := List.length_pos.mpr hne
  have hsnd : (heapPopGo h).2 =
      (down (hswap h 0 (h.length - 1)) 0 (h.length - 1)).dropLast := rfl
  rw [hsnd]
  have hdinv : DownInv (hswap h 0 (h.length - 1)) (h.length - 1) 0 := by
    constructor
    · intro c hc0 hcn hpc
      have hp_lt : parentIdx c < h.length := by
        unfold parentIdx
        omega
      rw [hkey_hswap h 0 (h.length - 1) c (by omega) (by omega),
        hkey_hswap h 0 (h.length - 1) (parentIdx c) (by omega) (by omega),
        if_neg (by unfold parentIdx at *; omega :
          ¬parentIdx c = h.length - 1),
        if_neg hpc, if_neg (by omega : ¬c = h.length - 1),
        if_neg (by omega : ¬c = 0)]
      exact hh c hc0 (by omega)
    · intro h0
      omega
  have hd := down_isHeap_aux (hswap h 0 (h.length - 1)) 0 (h.length - 1)
    (by rw [length_hswap]; omega) hdinv
  have hlen2 : (down (hswap h 0 (h.length - 1)) 0
      (h.length - 1)).length = h.length := by
    rw [length_down, length_hswap]
  unfold IsHeap
  intro c hc0 hcn
  rw [List.length_dropLast, hlen2] at hcn
  unfold hkey
  rw [hget_dropLast _ c (by rw [hlen2]; omega),
    hget_dropLast _ (parentIdx c) (by rw [hlen2]; unfold parentIdx; omega)]
  exact hd c hc0 hcn

theorem heapPopGo_perm (h : List Task) (hne : h ≠ []) :
    ((heapPopGo h).1 :: (heapPopGo h).2).Perm h := by
  have hlen : 0 < h.length := List.length_pos.mpr hne
  have hlen2 : (down (hswap h 0 (h.length - 1)) 0
      (h.length - 1)).length = h.length := by
    rw [length_down, length_hswap]
  have hne2 : down (hswap h 0 (h.length - 1)) 0 (h.length - 1) ≠ [] := by
    intro e
    rw [e] at hlen2
    simp at hlen2
    omega
  have hdrop := List.dropLast_append_getLast hne2
  have hfst2 : (heapPopGo h).1 =
      hget (down (hswap h 0 (h.length - 1)) 0 (h.length - 1))
        (h.length - 1) := rfl
  have hlast : (down (hswap h 0 (h.length - 1)) 0
      (h.length - 1)).getLast hne2 = (heapPopGo h).1 := by
    rw [List.getLast_eq_getElem, hfst2]
    simp only [hlen2]
    exact (hget_of_lt _ (h.length - 1) (by rw [hlen2]; omega)).symm
  have hsnd : (heapPopGo h).2 =
      (down (hswap h 0 (h.length - 1)) 0 (h.length - 1)).dropLast := rfl
  have hp1 : (down (hswap h 0 (h.length - 1)) 0
      (h.length - 1)).Perm h :=
    (down_perm (hswap h 0 (h.length - 1)) 0 (h.length - 1)
      (by rw [length_hswap]; omega)).trans
      (hswap_perm h 0 (h.length - 1) (by omega) (by omega))
  have hp2 : ((heapPopGo h).1 ::
      (down (hswap h 0 (h.length - 1)) 0 (h.length - 1)).dropLast).Perm
      (down (hswap h 0 (h.length - 1)) 0 (h.length - 1)) := by
    conv_rhs => rw [← hdrop, hlast]
    exact (List.perm_append_singleton _ _).symm
  rw [hsnd]
  exact hp2.trans hp1

theorem isHeap_nil : IsHeap [] := by
  intro c hc0 hcn
  simp at hcn

theorem isHeap_applyQOp (h : List Task) (op : QOp) (hh : IsHeap h) :
    IsHeap (applyQOp h op) := by
  cases op with
  | push t => exact isHeap_push h t hh
  | pop =>
    unfold applyQOp
    split_ifs with he
    · exact hh
    · refine heapPopGo_isHeap h ?_ hh
      simpa [List.isEmpty_iff] using he

theorem isHeap_foldl (ops : List QOp) :
    ∀ h, IsHeap h → IsHeap (ops.foldl applyQOp h) := by
  induction ops with
  | nil =>
    intro h hh
    exact hh
  | cons op ops ih =>
    intro h hh
    exact ih _ (isHeap_applyQOp h op hh)

theorem runQOps_isHeap (ops : List QOp) : IsHeap (runQOps ops) :=
  isHeap_foldl ops [] isHeap_nil

/-- C4: after any serialized trace of pushes and worker pops starting from
the empty heap, the next pop returns a task of minimal `smart_score` among
all tasks currently in the queue; hence if A and B are both in the queue
with score(A) < score(B), a pop never returns B while A is present, so A
is popped before B.  Equal scores are not constrained. -/
theorem c4_queue_ordering (ops : List QOp) (A B : Task)
    (hA : A ∈ runQOps ops) (hB : B ∈ runQOps ops)
    (hAB : A.smartScore < B.smartScore) :
    (∀ t ∈ runQOps ops,
      (heapPopGo (runQOps ops)).1.smartScore ≤ t.smartScore) ∧
    (heapPopGo (runQOps ops)).1 ≠ B := by
  have hh := runQOps_isHeap ops
  have hne : runQOps ops ≠ [] := by
    intro e
    rw [e] at hA
    exact absurd hA (List.not_mem_nil A)
  have hmin := heapPopGo_min (runQOps ops) hne hh
  refine ⟨hmin, fun he => ?_⟩
  have h1 := hmin A hA
  rw [he] at h1
  exact absurd hAB (not_lt.mpr h1)

theorem runQOps_pair :
    runQOps [QOp.push taskLow, QOp.push taskHigh] = [taskLow, taskHigh] := by
  have hup : up [taskLow, taskHigh] 1 = [taskLow, taskHigh] := by
    rw [up]
    rw [if_neg (by norm_num [parentIdx]),
      if_neg (by norm_num [parentIdx, hkey, hget, taskLow, taskHigh])]
  have h1 : applyQOp [] (QOp.push taskLow) = [taskLow] := by
    simp only [applyQOp]
    exact heapPushGo_nil taskLow
  have h2 : applyQOp [taskLow] (QOp.push taskHigh) = [taskLow, taskHigh] := by
    simp only [applyQOp, heapPushGo, List.cons_append, List.nil_append,
      List.length_cons, List.length_nil]
    exact hup
  show applyQOp (applyQOp [] (QOp.push taskLow)) (QOp.push taskHigh) =
    [taskLow, taskHigh]
  rw [h1, h2]

/-- C4 witness: with two concrete tasks of scores 1 and 2 pushed, the next
pop does not return the score-2 task. -/
theorem c4_queue_ordering_witness :
    taskLow ∈ runQOps [QOp.push taskLow, QOp.push taskHigh] ∧
    taskHigh ∈ runQOps [QOp.push taskLow, QOp.push taskHigh] ∧
    taskLow.smartScore < taskHigh.smartScore ∧
    (heapPopGo (runQOps [QOp.push taskLow, QOp.push taskHigh])).1 ≠
      taskHigh := by
  have hA : taskLow ∈ runQOps [QOp.push taskLow, QOp.push taskHigh] := by
    rw [runQOps_pair]
    simp
  have hB : taskHigh ∈ runQOps [QOp.push taskLow, QOp.push taskHigh] := by
    rw [runQOps_pair]
    simp
  have hs : taskLow.smartScore < taskHigh.smartScore := by
    norm_num [taskLow, taskHigh]
  exact ⟨hA, hB, hs,
    (c4_queue_ordering [QOp.push taskLow, QOp.push taskHigh] taskLow
      taskHigh hA hB hs).2⟩

theorem perm_cons_eraseIdx {α : Type} (l : List α) (i : ℕ)
    (h : i < l.length) : l.Perm (l[i] :: l.eraseIdx i) := by
  conv_lhs => rw [← List.take_append_drop i l, ← List.getElem_cons_drop l i h]
  rw [List.eraseIdx_eq_take_drop_succ]
  exact List.perm_middle

theorem filter_ne_of_not_mem (m : List (Int × Task)) (k : Int)
    (hk : k ∉ m.map (fun p => p.1)) :
    m.filter (fun p => !(p.1 == k)) = m := by
  rw [List.filter_eq_self]
  intro p hp
  have hne : p.1 ≠ k := fun he => hk (List.mem_map.mpr ⟨p, hp, he⟩)
  simp [hne]

theorem mapSet_of_fresh (m : List (Int × Task)) (k : Int) (v : Task)
    (hk : k ∉ m.map (fun p => p.1)) : mapSet m k v = (k, v) :: m := by
  unfold mapSet
  rw [filter_ne_of_not_mem m k hk]

theorem mapGet_cons (m : List (Int × Task)) (a k : Int) (b : Task) :
    mapGet ((a, b) :: m) k = if k = a then some b else mapGet m k := by
  by_cases hka : k = a
  · have hb : (k == a) = true := beq_iff_eq.mpr hka
    simp [mapGet, List.lookup_cons, hb, hka]
  · have hb : (k == a) = false := by
      simpa using hka
    simp [mapGet, List.lookup_cons, hb, hka]

theorem mapGet_some_mem_keys (m : List (Int × Task)) (k : Int) (u : Task)
    (hg : mapGet m k = some u) : k ∈ m.map (fun p => p.1) := by
  induction m with
  | nil => simp [mapGet] at hg
  | cons p m ih =>
    rcases p with ⟨a, b⟩
    rw [mapGet_cons] at hg
    by_cases hka : k = a
    · simp [hka]
    · rw [if_neg hka] at hg
      simp [ih hg]

theorem mapAdjust_cons (a : Int) (b : Task) (m : List (Int × Task))
    (k : Int) (f : Task → Task) :
    mapAdjust ((a, b) :: m) k f =
      (if a = k then (a, f b) else (a, b)) :: mapAdjust m k f := rfl

theorem mapAdjust_keys (m : List (Int × Task)) (k : Int) (f : Task → Task) :
    (mapAdjust m k f).map (fun p => p.1) = m.map (fun p => p.1) := by
  induction m with
  | nil => rfl
  | cons p m ih =>
    rcases p with ⟨a, b⟩
    rw [mapAdjust_cons]
    by_cases hak : a = k
    · rw [if_pos hak]
      simp only [List.map_cons, ih]
    · rw [if_neg hak]
      simp only [List.map_cons, ih]

theorem mapGet_mapAdjust_ne (m : List (Int × Task)) (k : Int)
    (f : Task → Task) (j : Int) (hj : j ≠ k) :
    mapGet (mapAdjust m k f) j = mapGet m j := by
  induction m with
  | nil => rfl
  | cons p m ih =>
    rcases p with ⟨a, b⟩
    rw [mapAdjust_cons]
    by_cases hak : a = k
    · rw [if_pos hak, mapGet_cons, mapGet_cons,
        if_neg (by rw [hak]; exact hj), if_neg (by rw [hak]; exact hj)]
      exact ih
    · rw [if_neg hak, mapGet_cons, mapGet_cons]
      by_cases hja : j = a
      · rw [if_pos hja, if_pos hja]
      · rw [if_neg hja, if_neg hja]
        exact ih

theorem mapGet_mapAdjust_self (m : List (Int × Task)) (k : Int)
    (f : Task → Task) :
    mapGet (mapAdjust m k f) k = (mapGet m k).map f := by
  induction m with
  | nil => rfl
  | cons p m ih =>
    rcases p with ⟨a, b⟩
    rw [mapAdjust_cons]
    by_cases hak : a = k
    · rw [if_pos hak, mapGet_cons, mapGet_cons,
        if_pos hak.symm, if_pos hak.symm]
      rfl
    · rw [if_neg hak, mapGet_cons, mapGet_cons]
      by_cases hka : k = a
      · exact absurd hka.symm hak
      · rw [if_neg hka, if_neg hka]
        exact ih

theorem mapAdjust_of_not_mem (m : List (Int × Task)) (k : Int)
    (f : Task → Task) (hk : k ∉ m.map (fun p => p.1)) :
    mapAdjust m k f = m := by
  induction m with
  | nil => rfl
  | cons p m ih =>
    rcases p with ⟨a, b⟩
    simp only [List.map_cons, List.mem_cons] at hk
    push_neg at hk
    rw [mapAdjust_cons, if_neg (fun he => hk.1 he.symm), ih hk.2]

theorem reservedSum_cons (a : Int) (b : Task) (m : List (Int × Task))
    (cost : Task → ℚ) :
    reservedSum ((a, b) :: m) cost = liveCost cost b + reservedSum m cost := by
  simp [reservedSum]

theorem reservedSum_mapAdjust (m : List (Int × Task)) (k : Int)
    (f : Task → Task) (cost : Task → ℚ)
    (hnd : (m.map (fun p => p.1)).Nodup) (t : Task)
    (hg : mapGet m k = some t) :
    reservedSum (mapAdjust m k f) cost + liveCost cost t =
      reservedSum m cost + liveCost cost (f t) := by
  induction m with
  | nil => simp [mapGet] at hg
  | cons p m ih =>
    rcases p with ⟨a, b⟩
    simp only [List.map_cons, List.nodup_cons] at hnd
    rw [mapGet_cons] at hg
    rw [mapAdjust_cons]
    by_cases hka : k = a
    · rw [if_pos hka] at hg
      injection hg with hg
      subst hg
      have hkm : k ∉ m.map (fun p => p.1) := by
        rw [hka]
        exact hnd.1
      rw [if_pos hka.symm, mapAdjust_of_not_mem m k f hkm,
        reservedSum_cons, reservedSum_cons]
      ring
    · rw [if_neg hka] at hg
      rw [if_neg (fun he => hka he.symm), reservedSum_cons, reservedSum_cons]
      have hih := ih hnd.2 hg
      linarith [hih]

theorem heapIds_subset_storeIds (fc : FogCompute) (hinv : Inv fc) :
    ∀ i ∈ heapIds fc, i ∈ storeIds fc := by
  intro i hi
  obtain ⟨t, ht, rfl⟩ := List.mem_map.mp hi
  obtain ⟨u, hu, -⟩ := hinv.heapStore t ht
  exact mapGet_some_mem_keys _ _ _ hu

theorem inv_tick (fc : FogCompute) (hinv : Inv fc) :
    Inv (metricsTick fc) :=
  ⟨hinv.conservation, hinv.idsNodup, hinv.heapStore, hinv.heapNodup⟩

theorem inv_startProc (fc : FogCompute) (hinv : Inv fc) :
    Inv (startProcessing fc) := by
  unfold startProcessing
  split_ifs with he
  · exact hinv
  · have hne : fc.taskHeap ≠ [] := by
      simpa [List.isEmpty_iff] using he
    obtain ⟨u, hu, huq⟩ :=
      hinv.heapStore (heapPopGo fc.taskHeap).1 (heapPopGo_mem _ hne)
    have hnd : (fc.tasks.map (fun p => p.1)).Nodup :=
      hinv.idsNodup.of_append_left
    have hperm := heapPopGo_perm fc.taskHeap hne
    have hidsperm : ((heapPopGo fc.taskHeap).1.id ::
        (heapPopGo fc.taskHeap).2.map (fun t => t.id)).Perm
        (heapIds fc) := by
      simpa [heapIds] using hperm.map (fun t => t.id)
    have hid_rest : (heapPopGo fc.taskHeap).1.id ∉
        (heapPopGo fc.taskHeap).2.map (fun t => t.id) := by
      have hnd2 : ((heapPopGo fc.taskHeap).1.id ::
          (heapPopGo fc.taskHeap).2.map (fun t => t.id)).Nodup :=
        (hidsperm.nodup_iff).mpr hinv.heapNodup
      exact (List.nodup_cons.mp hnd2).1
    obtain ⟨hc1, hc2, hc3, hc4⟩ := hinv.conservation
    refine ⟨⟨?_, ?_, ?_, ?_⟩, ?_, ?_, ?_⟩
    · have h1 := reservedSum_mapAdjust fc.tasks (heapPopGo fc.taskHeap).1.id
        (fun u => { u with status := Status.processing })
        (fun t => t.cpuCost) hnd u hu
      simp [liveCost, huq] at h1
      simp only []
      linarith [h1]
    · have h1 := reservedSum_mapAdjust fc.tasks (heapPopGo fc.taskHeap).1.id
        (fun u => { u with status := Status.processing })
        (fun t => t.ramCost) hnd u hu
      simp [liveCost, huq] at h1
      simp only []
      linarith [h1]
    · have h1 := reservedSum_mapAdjust fc.tasks (heapPopGo fc.taskHeap).1.id
        (fun u => { u with status := Status.processing })
        (fun t => t.storageCost) hnd u hu
      simp [liveCost, huq] at h1
      simp only []
      linarith [h1]
    · have h1 := reservedSum_mapAdjust fc.tasks (heapPopGo fc.taskHeap).1.id
        (fun u => { u with status := Status.processing })
        (fun t => t.energyCost) hnd u hu
      simp [liveCost, huq] at h1
      simp only []
      linarith [h1]
    · have hkeys := mapAdjust_keys fc.tasks (heapPopGo fc.taskHeap).1.id
        (fun u => { u with status := Status.processing })
      simpa [storeIds, rejIds, hkeys] using hinv.idsNodup
    · intro t ht
      have htmem : t ∈ fc.taskHeap := by
        refine hperm.mem_iff.mp ?_
        exact List.mem_cons_of_mem _ ht
      obtain ⟨u2, hu2, hq2⟩ := hinv.heapStore t htmem
      have htid : t.id ≠ (heapPopGo fc.taskHeap).1.id := by
        intro he
        exact hid_rest (he ▸ List.mem_map.mpr ⟨t, ht, rfl⟩)
      refine ⟨u2, ?_, hq2⟩
      rw [mapGet_mapAdjust_ne fc.tasks _ _ t.id htid]
      exact hu2
    · have hnd2 : ((heapPopGo fc.taskHeap).1.id ::
          (heapPopGo fc.taskHeap).2.map (fun t => t.id)).Nodup :=
        (hidsperm.nodup_iff).mpr hinv.heapNodup
      simpa [heapIds] using (List.nodup_cons.mp hnd2).2

theorem finishProcessing_none (fc : FogCompute) (id now : Int)
    (hm : mapGet fc.tasks id = none) : finishProcessing fc id now = fc := by
  unfold finishProcessing
  rw [hm]

theorem finishProcessing_some (fc : FogCompute) (id now : Int) (t : Task)
    (hm : mapGet fc.tasks id = some t) :
    finishProcessing fc id now =
      if t.status = Status.processing then
        { fc with
          tasks := mapAdjust fc.tasks id
            (fun u => { u with
                        status := Status.completed,
                        completedAt := some now }),
          availableCPU := fc.availableCPU + t.cpuCost,
          availableRAM := fc.availableRAM + t.ramCost,
          availableStorage := fc.availableStorage + t.storageCost,
          energyLevel := fc.energyLevel + t.energyCost,
          tasksProcessed := fc.tasksProcessed + 1 }
      else fc := by
  unfold finishProcessing
  rw [hm]

theorem inv_finish (fc : FogCompute) (id : Int) (now : Int)
    (hinv : Inv fc) : Inv (finishProcessing fc id now) := by
  cases hm : mapGet fc.tasks id with
  | none =>
    rw [finishProcessing_none fc id now hm]
    exact hinv
  | some t =>
    rw [finishProcessing_some fc id now t hm]
    split_ifs with hst
    · have hnd : (fc.tasks.map (fun p => p.1)).Nodup :=
        hinv.idsNodup.of_append_left
      obtain ⟨hc1, hc2, hc3, hc4⟩ := hinv.conservation
      refine ⟨⟨?_, ?_, ?_, ?_⟩, ?_, ?_, ?_⟩
      · have h1 := reservedSum_mapAdjust fc.tasks id
          (fun u => { u with
                      status := Status.completed,
                      completedAt := some now })
          (fun t => t.cpuCost) hnd t hm
        simp [liveCost, hst] at h1
        simp only []
        linarith [h1]
      · have h1 := reservedSum_mapAdjust fc.tasks id
          (fun u => { u with
                      status := Status.completed,
                      completedAt := some now })
          (fun t => t.ramCost) hnd t hm
        simp [liveCost, hst] at h1
        simp only []
        linarith [h1]
      · have h1 := reservedSum_mapAdjust fc.tasks id
          (fun u => { u with
                      status := Status.completed,
                      completedAt := some now })
          (fun t => t.storageCost) hnd t hm
        simp [liveCost, hst] at h1
        simp only []
        linarith [h1]
      · have h1 := reservedSum_mapAdjust fc.tasks id
          (fun u => { u with
                      status := Status.completed,
                      completedAt := some now })
          (fun t => t.energyCost) hnd t hm
        simp [liveCost, hst] at h1
        simp only []
        linarith [h1]
      · have hkeys := mapAdjust_keys fc.tasks id
          (fun u => { u with
                      status := Status.completed,
                      completedAt := some now })
        simpa [storeIds, rejIds, hkeys] using hinv.idsNodup
      · intro t2 ht2
        obtain ⟨u2, hu2, hq2⟩ := hinv.heapStore t2 ht2
        have htid : t2.id ≠ id := by
          intro he
          rw [he, hm] at hu2
          injection hu2 with hu2
          rw [hu2] at hst
          rw [hq2] at hst
          exact absurd hst (by decide)
        refine ⟨u2, ?_, hq2⟩
        rw [mapGet_mapAdjust_ne fc.tasks _ _ t2.id htid]
        exact hu2
      · exact hinv.heapNodup
    · exact hinv

theorem inv_rejectTask (fc : FogCompute) (t : Task) (r : Reason) (load : ℚ)
    (qs : ℕ) (now : Int) (hinv : Inv fc) (hid : t.id = now)
    (hfresh : now ∉ storeIds fc ++ rejIds fc) :
    Inv (rejectTask fc t r load qs now) := by
  refine ⟨hinv.conservation, ?_, hinv.heapStore, hinv.heapNodup⟩
  have hrid : rejIds (rejectTask fc t r load qs now) = rejIds fc ++ [now] := by
    simp [rejIds, rejectTask, hid]
  have hsid : storeIds (rejectTask fc t r load qs now) = storeIds fc := rfl
  rw [hsid, hrid, ← List.append_assoc]
  exact ((List.perm_append_singleton now _).nodup_iff).mpr
    (List.nodup_cons.mpr ⟨hfresh, hinv.idsNodup⟩)

theorem inv_submit (fc : FogCompute) (req : Task) (now : Int)
    (hinv : Inv fc) (hfresh : now ∉ storeIds fc ++ rejIds fc) :
    Inv ((handleSubmitTask fc req now).1) := by
  have hfs : now ∉ storeIds fc := fun hc => hfresh (List.mem_append_left _ hc)
  have hfh : now ∉ heapIds fc := fun hc =>
    hfs (heapIds_subset_storeIds fc hinv now hc)
  simp only [handleSubmitTask]
  split_ifs with h1 h2 h3
  · exact inv_rejectTask fc _ _ _ _ now hinv rfl hfresh
  · exact inv_rejectTask fc _ _ _ _ now hinv rfl hfresh
  · exact inv_rejectTask fc _ _ _ _ now hinv rfl hfresh
  · have hid2 : ({ admissionRecord req now with
        status := Status.queued } : Task).id = now := rfl
    have hset : mapSet fc.tasks ({ admissionRecord req now with
          status := Status.queued } : Task).id
        { admissionRecord req now with status := Status.queued } =
        (now, { admissionRecord req now with status := Status.queued }) ::
          fc.tasks := by
      rw [hid2]
      exact mapSet_of_fresh fc.tasks now _ hfs
    have hpushlen : (fc.taskHeap ++
        [{ admissionRecord req now with status := Status.queued }]).length -
        1 < (fc.taskHeap ++
        [{ admissionRecord req now with status := Status.queued }]).length := by
      simp
    have hup := up_perm (fc.taskHeap ++
      [{ admissionRecord req now with status := Status.queued }]) _ hpushlen
    obtain ⟨hc1, hc2, hc3, hc4⟩ := hinv.conservation
    refine ⟨⟨?_, ?_, ?_, ?_⟩, ?_, ?_, ?_⟩
    · rw [hset, reservedSum_cons]
      have hl : liveCost (fun t => t.cpuCost)
          { admissionRecord req now with status := Status.queued } =
          (admissionRecord req now).cpuCost := by
        simp [liveCost]
      rw [hl]
      try simp only []
      linarith [hc1]
    · rw [hset, reservedSum_cons]
      have hl : liveCost (fun t => t.ramCost)
          { admissionRecord req now with status := Status.queued } =
          (admissionRecord req now).ramCost := by
        simp [liveCost]
      rw [hl]
      try simp only []
      linarith [hc2]
    · rw [hset, reservedSum_cons]
      have hl : liveCost (fun t => t.storageCost)
          { admissionRecord req now with status := Status.queued } =
          (admissionRecord req now).storageCost := by
        simp [liveCost]
      rw [hl]
      try simp only []
      linarith [hc3]
    · rw [hset, reservedSum_cons]
      have hl : liveCost (fun t => t.energyCost)
          { admissionRecord req now with status := Status.queued } =
          (admissionRecord req now).energyCost := by
        simp [liveCost]
      rw [hl]
      try simp only []
      linarith [hc4]
    · simp only [storeIds, rejIds, hset]
      simp only [List.map_cons, List.cons_append]
      exact List.nodup_cons.mpr ⟨hfresh, hinv.idsNodup⟩
    · intro t ht
      simp only [heapPushGo] at ht
      have hmem : t ∈ fc.taskHeap ++
          [{ admissionRecord req now with status := Status.queued }] :=
        mem_up _ _ hpushlen t ht
      simp only []
      rw [hset]
      rcases List.mem_append.mp hmem with hold | hnew
      · obtain ⟨u, hu, hq⟩ := hinv.heapStore t hold
        have htid : t.id ≠ now := by
          intro he
          exact hfs (he ▸ heapIds_subset_storeIds fc hinv t.id
            (List.mem_map.mpr ⟨t, hold, rfl⟩))
        refine ⟨u, ?_, hq⟩
        rw [mapGet_cons, if_neg htid]
        exact hu
      · have ht2 : t = { admissionRecord req now with
            status := Status.queued } := by
          simpa using hnew
        refine ⟨{ admissionRecord req now with status := Status.queued },
          ?_, rfl⟩
        rw [ht2, hid2, mapGet_cons, if_pos rfl]
    · simp only [heapIds, heapPushGo]
      have hidsperm := hup.map (fun t => t.id)
      refine (hidsperm.nodup_iff).mpr ?_
      simp only [List.map_append, List.map_cons, List.map_nil]
      refine ((List.perm_append_singleton _ _).nodup_iff).mpr ?_
      exact List.nodup_cons.mpr ⟨hfh, hinv.heapNodup⟩

theorem handleRetry_none (fc : FogCompute) (id now : Int)
    (hf : fc.rejectedTasks.findIdx? (fun rt => rt.task.id == id) = none) :
    handleRetryRejectedTask fc id now = (fc, RetryResult.notFound) := by
  unfold handleRetryRejectedTask
  rw [hf]

theorem handleRetry_some (fc : FogCompute) (id now : Int) (i : ℕ)
    (hf : fc.rejectedTasks.findIdx? (fun rt => rt.task.id == id) = some i) :
    handleRetryRejectedTask fc id now =
      if (fc.rejectedTasks.getD i default).task.cpuCost > fc.availableCPU ∨
          (fc.rejectedTasks.getD i default).task.ramCost > fc.availableRAM ∨
          (fc.rejectedTasks.getD i default).task.storageCost >
            fc.availableStorage then
        (fc, RetryResult.stillInsufficient)
      else
        ({ fc with
           rejectedTasks := fc.rejectedTasks.eraseIdx i,
           availableCPU := fc.availableCPU -
             (requeuedTask (fc.rejectedTasks.getD i default).task now).cpuCost,
           availableRAM := fc.availableRAM -
             (requeuedTask (fc.rejectedTasks.getD i default).task now).ramCost,
           availableStorage := fc.availableStorage -
             (requeuedTask (fc.rejectedTasks.getD i default).task
               now).storageCost,
           energyLevel := fc.energyLevel -
             (requeuedTask (fc.rejectedTasks.getD i default).task
               now).energyCost,
           tasks := mapSet fc.tasks
             (requeuedTask (fc.rejectedTasks.getD i default).task now).id
             (requeuedTask (fc.rejectedTasks.getD i default).task now),
           taskHeap := heapPushGo fc.taskHeap
             (requeuedTask (fc.rejectedTasks.getD i default).task now) },
         RetryResult.retried
           (requeuedTask (fc.rejectedTasks.getD i default).task now)) := by
  unfold handleRetryRejectedTask
  rw [hf]

theorem inv_retry (fc : FogCompute) (id now : Int) (hinv : Inv fc) :
    Inv ((handleRetryRejectedTask fc id now).1) := by
  cases hf : fc.rejectedTasks.findIdx? (fun rt => rt.task.id == id) with
  | none =>
    rw [handleRetry_none fc id now hf]
    exact hinv
  | some i =>
    rw [handleRetry_some fc id now i hf]
    have hlen : i < fc.rejectedTasks.length :=
      (List.findIdx?_eq_some_iff_findIdx_eq.mp hf).1
    split_ifs with hres
    · exact hinv
    · have hri : fc.rejectedTasks.getD i default = fc.rejectedTasks[i] :=
        List.getD_eq_getElem _ _ hlen
      have hrejperm : fc.rejectedTasks.Perm
          (fc.rejectedTasks[i] :: fc.rejectedTasks.eraseIdx i) :=
        perm_cons_eraseIdx _ i hlen
      have hrid_mem : (fc.rejectedTasks.getD i default).task.id ∈
          rejIds fc := by
        rw [hri]
        exact List.mem_map.mpr ⟨_, List.getElem_mem hlen, rfl⟩
      have hdisj := List.disjoint_of_nodup_append hinv.idsNodup
      have hrs : (fc.rejectedTasks.getD i default).task.id ∉ storeIds fc :=
        fun hc => hdisj hc hrid_mem
      have hrh : (fc.rejectedTasks.getD i default).task.id ∉ heapIds fc :=
        fun hc => hrs (heapIds_subset_storeIds fc hinv _ hc)
      have hid2 : (requeuedTask (fc.rejectedTasks.getD i default).task
          now).id = (fc.rejectedTasks.getD i default).task.id := rfl
      have hset : mapSet fc.tasks
          (requeuedTask (fc.rejectedTasks.getD i default).task now).id
          (requeuedTask (fc.rejectedTasks.getD i default).task now) =
          ((fc.rejectedTasks.getD i default).task.id,
            requeuedTask (fc.rejectedTasks.getD i default).task now) ::
            fc.tasks := by
        rw [hid2]
        exact mapSet_of_fresh fc.tasks _ _ hrs
      have hpushlen : (fc.taskHeap ++
          [requeuedTask (fc.rejectedTasks.getD i default).task now]).length -
          1 < (fc.taskHeap ++
          [requeuedTask (fc.rejectedTasks.getD i default).task now]).length := by
        simp
      have hup := up_perm (fc.taskHeap ++
        [requeuedTask (fc.rejectedTasks.getD i default).task now]) _ hpushlen
      have hlq : (requeuedTask (fc.rejectedTasks.getD i default).task
          now).status = Status.queued := rfl
      obtain ⟨hc1, hc2, hc3, hc4⟩ := hinv.conservation
      refine ⟨⟨?_, ?_, ?_, ?_⟩, ?_, ?_, ?_⟩
      · rw [hset, reservedSum_cons]
        have hl : liveCost (fun t => t.cpuCost)
            (requeuedTask (fc.rejectedTasks.getD i default).task now) =
            (fc.rejectedTasks.getD i default).task.cpuCost := by
          simp [liveCost, hlq, requeuedTask]
        rw [hl]
        have hcc : (requeuedTask (fc.rejectedTasks.getD i default).task
            now).cpuCost = (fc.rejectedTasks.getD i default).task.cpuCost :=
          rfl
        try simp only []
        rw [hcc]
        linarith [hc1]
      · rw [hset, reservedSum_cons]
        have hl : liveCost (fun t => t.ramCost)
            (requeuedTask (fc.rejectedTasks.getD i default).task now) =
            (fc.rejectedTasks.getD i default).task.ramCost := by
          simp [liveCost, hlq, requeuedTask]
        rw [hl]
        have hcc : (requeuedTask (fc.rejectedTasks.getD i default).task
            now).ramCost = (fc.rejectedTasks.getD i default).task.ramCost :=
          rfl
        try simp only []
        rw [hcc]
        linarith [hc2]
      · rw [hset, reservedSum_cons]
        have hl : liveCost (fun t => t.storageCost)
            (requeuedTask (fc.rejectedTasks.getD i default).task now) =
            (fc.rejectedTasks.getD i default).task.storageCost := by
          simp [liveCost, hlq, requeuedTask]
        rw [hl]
        have hcc : (requeuedTask (fc.rejectedTasks.getD i default).task
            now).storageCost =
            (fc.rejectedTasks.getD i default).task.storageCost := rfl
        try simp only []
        rw [hcc]
        linarith [hc3]
      · rw [hset, reservedSum_cons]
        have hl : liveCost (fun t => t.energyCost)
            (requeuedTask (fc.rejectedTasks.getD i default).task now) =
            (fc.rejectedTasks.getD i default).task.energyCost := by
          simp [liveCost, hlq, requeuedTask]
        rw [hl]
        have hcc : (requeuedTask (fc.rejectedTasks.getD i default).task
            now).energyCost =
            (fc.rejectedTasks.getD i default).task.energyCost := rfl
        try simp only []
        rw [hcc]
        linarith [hc4]
      · simp only [storeIds, rejIds, hset]
        simp only [List.map_cons, List.cons_append]
        have hmapperm : (fc.rejectedTasks.map (fun rt => rt.task.id)).Perm
            (fc.rejectedTasks[i].task.id ::
              (fc.rejectedTasks.eraseIdx i).map (fun rt => rt.task.id)) := by
          simpa using hrejperm.map (fun rt => rt.task.id)
        have hold : (storeIds fc ++ rejIds fc).Perm
            ((fc.rejectedTasks.getD i default).task.id ::
              (storeIds fc ++
                (fc.rejectedTasks.eraseIdx i).map (fun rt => rt.task.id))) := by
          refine ((List.Perm.append_left (storeIds fc) ?_).trans
            List.perm_middle)
          rw [hri]
          exact hmapperm
        have := (hold.nodup_iff).mp hinv.idsNodup
        simpa [storeIds, rejIds] using this
      · intro t ht
        simp only [heapPushGo] at ht
        have hmem : t ∈ fc.taskHeap ++
            [requeuedTask (fc.rejectedTasks.getD i default).task now] :=
          mem_up _ _ hpushlen t ht
        rw [hset]
        rcases List.mem_append.mp hmem with hold | hnew
        · obtain ⟨u, hu, hq⟩ := hinv.heapStore t hold
          have htid : t.id ≠ (fc.rejectedTasks.getD i default).task.id := by
            intro he
            exact hrh (he ▸ List.mem_map.mpr ⟨t, hold, rfl⟩)
          refine ⟨u, ?_, hq⟩
          rw [mapGet_cons, if_neg htid]
          exact hu
        · have ht2 : t = requeuedTask
              (fc.rejectedTasks.getD i default).task now := by
            simpa using hnew
          refine ⟨requeuedTask (fc.rejectedTasks.getD i default).task now,
            ?_, hlq⟩
          rw [ht2, hid2, mapGet_cons, if_pos rfl]
      · simp only [heapIds, heapPushGo]
        have hidsperm := hup.map (fun t => t.id)
        refine (hidsperm.nodup_iff).mpr ?_
        simp only [List.map_append, List.map_cons, List.map_nil]
        refine ((List.perm_append_singleton _ _).nodup_iff).mpr ?_
        refine List.nodup_cons.mpr ⟨?_, hinv.heapNodup⟩
        rw [hid2]
        exact hrh

theorem submitNows_cons (ev : Ev) (evs : List Ev) :
    submitNows (ev :: evs) = submitNows [ev] ++ submitNows evs := by
  cases ev <;> rfl

theorem mapFst_filter_subset (m : List (Int × Task)) (k i : Int)
    (hi : i ∈ (m.filter (fun p => !(p.1 == k))).map (fun p => p.1)) :
    i ∈ m.map (fun p => p.1) := by
  obtain ⟨p, hp, rfl⟩ := List.mem_map.mp hi
  exact List.mem_map.mpr ⟨p, List.mem_of_mem_filter hp, rfl⟩

theorem step_ids (fc : FogCompute) (ev : Ev) :
    ∀ i ∈ storeIds (step fc ev) ++ rejIds (step fc ev),
      i ∈ submitNows [ev] ++ (storeIds fc ++ rejIds fc) := by
  cases ev with
  | submit req now =>
    intro i hi
    simp only [step, handleSubmitTask] at hi
    split_ifs at hi with h1 h2 h3
    · simp only [storeIds, rejIds, rejectTask, List.map_append,
        List.map_cons, List.map_nil, submitNows] at hi ⊢
      simp only [List.mem_append, List.mem_cons, List.mem_singleton] at hi ⊢
      tauto
    · simp only [storeIds, rejIds, rejectTask, List.map_append,
        List.map_cons, List.map_nil, submitNows] at hi ⊢
      simp only [List.mem_append, List.mem_cons, List.mem_singleton] at hi ⊢
      tauto
    · simp only [storeIds, rejIds, rejectTask, List.map_append,
        List.map_cons, List.map_nil, submitNows] at hi ⊢
      simp only [List.mem_append, List.mem_cons, List.mem_singleton] at hi ⊢
      tauto
    · simp only [storeIds, rejIds, mapSet, List.map_cons, submitNows] at hi ⊢
      simp only [List.mem_append, List.mem_cons] at hi ⊢
      rcases hi with (hi | hi) | hi
      · left
        left
        exact hi
      · right
        left
        exact mapFst_filter_subset fc.tasks _ i hi
      · right
        right
        exact hi
  | retry id now =>
    intro i hi
    cases hf : fc.rejectedTasks.findIdx? (fun rt => rt.task.id == id) with
    | none =>
      rw [show step fc (Ev.retry id now) =
        (handleRetryRejectedTask fc id now).1 from rfl,
        handleRetry_none fc id now hf] at hi
      exact List.mem_append_right _ hi
    | some j =>
      have hlen : j < fc.rejectedTasks.length :=
        (List.findIdx?_eq_some_iff_findIdx_eq.mp hf).1
      rw [show step fc (Ev.retry id now) =
        (handleRetryRejectedTask fc id now).1 from rfl,
        handleRetry_some fc id now j hf] at hi
      split_ifs at hi with hres
      · exact List.mem_append_right _ hi
      · refine List.mem_append_right _ ?_
        simp only [storeIds, rejIds, mapSet, List.map_cons] at hi ⊢
        simp only [List.mem_append, List.mem_cons] at hi ⊢
        rcases hi with (hi | hi) | hi
        · right
          rw [hi]
          have hgd : fc.rejectedTasks.getD j default = fc.rejectedTasks[j] :=
            List.getD_eq_getElem _ _ hlen
          have hre : (requeuedTask (fc.rejectedTasks.getD j default).task
              now).id = (fc.rejectedTasks.getD j default).task.id := rfl
          rw [hre, hgd]
          exact List.mem_map.mpr ⟨_, List.getElem_mem hlen, rfl⟩
        · left
          exact mapFst_filter_subset fc.tasks _ i hi
        · right
          exact List.mem_map.mpr
            (by
              obtain ⟨rt, hrt, he⟩ := List.mem_map.mp hi
              exact ⟨rt, (List.eraseIdx_sublist _ j).subset hrt, he⟩)
  | startProc =>
    intro i hi
    refine List.mem_append_right _ ?_
    simp only [step, startProcessing] at hi
    split_ifs at hi with he
    · exact hi
    · simpa [storeIds, rejIds, mapAdjust_keys] using hi
  | finishProc id now =>
    intro i hi
    refine List.mem_append_right _ ?_
    simp only [step] at hi
    cases hm : mapGet fc.tasks id with
    | none =>
      rw [finishProcessing_none fc id now hm] at hi
      exact hi
    | some t =>
      rw [finishProcessing_some fc id now t hm] at hi
      split_ifs at hi with hst
      · simpa [storeIds, rejIds, mapAdjust_keys] using hi
      · exact hi
  | tick =>
    intro i hi
    exact List.mem_append_right _ hi

theorem inv_run (evs : List Ev) :
    ∀ fc, Inv fc →
      (∀ i ∈ storeIds fc ++ rejIds fc, i ∉ submitNows evs) →
      (submitNows evs).Nodup →
      Inv (evs.foldl step fc) := by
  induction evs with
  | nil =>
    intro fc hinv _ _
    exact hinv
  | cons ev evs ih =>
    intro fc hinv hfresh hnodup
    rw [submitNows_cons] at hfresh hnodup
    show Inv (evs.foldl step (step fc ev))
    have hinv2 : Inv (step fc ev) := by
      cases ev with
      | submit req now =>
        refine inv_submit fc req now hinv (fun hc => ?_)
        exact hfresh now hc (List.mem_append_left _ (by simp [submitNows]))
      | retry id now => exact inv_retry fc id now hinv
      | startProc => exact inv_startProc fc hinv
      | finishProc id now => exact inv_finish fc id now hinv
      | tick => exact inv_tick fc hinv
    refine ih (step fc ev) hinv2 ?_ hnodup.of_append_right
    intro i hi hmem
    have hsub := step_ids fc ev i hi
    rcases List.mem_append.mp hsub with hl | hr
    · exact List.disjoint_of_nodup_append hnodup hl hmem
    · exact hfresh i hr (List.mem_append_right _ hmem)

theorem inv_init : Inv initFog := by
  refine ⟨⟨?_, ?_, ?_, ?_⟩, ?_, ?_, ?_⟩ <;>
    simp [initFog, Conservation, reservedSum, storeIds, rejIds, heapIds]

/-- C3: for every serialized sequence of submissions, retries, worker
pick-ups, completions and metric ticks in which the clock hands each
submission a distinct nanosecond reading, each of the four ledger
dimensions satisfies available + Σ (declared costs of tasks with status
queued or processing) = initial capacity (1, 1, 1000, 1); admission and
retry deduct all four costs in the same locked step that stores and
enqueues the task, and completion releases exactly the looked-up task's
costs. -/
theorem c3_resource_conservation (evs : List Ev)
    (hnodup : (submitNows evs).Nodup) :
    Conservation (runTrace evs) := by
  refine (inv_run evs initFog inv_init ?_ hnodup).conservation
  intro i hi
  simp [initFog, storeIds, rejIds] at hi

/-- C3 witness: the conservation equations hold after the concrete run
`evC3`, whose two submissions use the distinct clock readings 5 and 6. -/
theorem c3_resource_conservation_witness :
    (submitNows evC3).Nodup ∧ Conservation (runTrace evC3) :=
  ⟨by decide, c3_resource_conservation evC3 (by decide)⟩

end Fog
